import Mathlib

/-!
Verification of the mindbnb quantization engine (bitsandbytes port to MindSpore).

The definitions below are a shallow embedding of the Python sources:
  * src/bitsandbytes/functional.py   (codebook builders, blockwise quantizer
    and dequantizer, QuantState serialization)
  * src/bitsandbytes/autograd/_functions.py  (tiled-layout inverse permutation,
    quantized matmul orchestrator MatMul8bitLt / MatMul4Bit, matmul entry point)

Floating-point tensors are modelled with exact rationals, int8/int32 tensors
with integers, and tensors themselves with lists or index functions.  Native
GPU kernels (the opaque bnbop backend) and library primitives that are not part
of the repository are modelled from the specification; every such definition
carries a doc comment saying so.

The file is organized as: all definitions first, then all lemmas and theorems.
-/

set_option maxRecDepth 65536

namespace MindBnB

/-! ## Small tensor utilities (mindspore primitives used by the sources) -/

/-- Model of ops.linspace(a, b, n): n evenly spaced points from a to b
inclusive.  For n = 1 the rational division by zero yields the start point,
matching the framework behaviour of a single-point linspace. -/
def linspace (a b : ℚ) (n : ℕ) : List ℚ :=
  (List.range n).map (fun k : ℕ => a + (b - a) * (k : ℚ) / ((n - 1 : ℕ) : ℚ))

/-- Model of Tensor.max() on a nonempty tensor: maximum of the entries
(0 on an empty tensor, which never occurs in the modelled calls). -/
def tensorMax : List ℚ → ℚ
  | [] => 0
  | x :: xs => xs.foldl max x

/-- Model of Tensor.abs().max(): maximum absolute value of the entries. -/
def maxAbs (l : List ℚ) : ℚ := tensorMax (l.map (fun x => |x|))

/-- Model of Tensor.mean(): sum divided by number of elements. -/
def tensorMean (l : List ℚ) : ℚ := l.sum / (l.length : ℚ)

/-- Midpoints of consecutive entries: (boundaries[:-1] + boundaries[1:]) / 2. -/
def midpoints (l : List ℚ) : List ℚ :=
  (l.zip l.tail).map (fun p => (p.1 + p.2) / 2)

/-- Model of values.sort() on a 1-d tensor. -/
def tensorSort (l : List ℚ) : List ℚ := List.insertionSort (· ≤ ·) l

/-! ## C9 data: number of absmax entries allocated by a quantize call

Source (src/bitsandbytes/functional.py, quantize_blockwise lines 747-751 and
quantize_4bit lines 1066-1069): both allocate the absmax array with

    blocks = n // blocksize
    blocks += 1 if n % blocksize > 0 else 0
-/

/-- Number of per-block scale entries allocated by quantize_blockwise and
quantize_4bit for an input of n elements at a given blocksize, exactly as
computed by the source. -/
def absmaxBlocks (n blocksize : ℕ) : ℕ :=
  n / blocksize + (if n % blocksize > 0 then 1 else 0)

/-- The blocksizes accepted by the quantizer assertions in the source. -/
def supportedBlocksizes : List ℕ := [4096, 2048, 1024, 512, 256, 128, 64]

/-! ## Codebook builders (src/bitsandbytes/functional.py)

All builders are modelled with exact rational arithmetic in place of float32.
-/

/-- create_linear_map(signed, total_bits, add_zero)
(src/bitsandbytes/functional.py lines 215-231): a linspace from sign to 1.0
over total_values points, with 256-numel zeros spliced into the middle when
the point count falls short of 256. -/
def create_linear_map (signed : Bool) (total_bits : ℕ) (add_zero : Bool) : List ℚ :=
  let sign : ℚ := if signed then -1 else 0
  let total_values : ℕ :=
    if add_zero || decide (total_bits < 8) then
      (if signed then 2 ^ total_bits - 1 else 2 ^ total_bits)
    else 2 ^ total_bits
  let values := linspace sign 1 total_values
  let gap := 256 - values.length
  if gap = 0 then values
  else
    values.take (values.length / 2) ++ List.replicate gap 0
      ++ values.drop (values.length / 2)

/-- create_dynamic_map(signed, max_exponent_bits, total_bits)
(src/bitsandbytes/functional.py lines 306-358): per exponent level i the
midpoints of a linspace over [0.1, 1] scaled by 10^(i - (max_exponent_bits-1)),
plus mirrored negatives when signed, plus the additional no-indicator-bit
items, plus exact 0 and 1, padded to 256 with zeros and sorted. -/
def create_dynamic_map (signed : Bool) (max_exponent_bits total_bits : ℕ) : List ℚ :=
  let non_sign_bits := total_bits - 1
  let additional_items := 2 ^ (non_sign_bits - max_exponent_bits) - 1
  let factor : ℕ → ℚ := fun i =>
    (10 : ℚ) ^ ((i : ℤ) - ((max_exponent_bits - 1 : ℕ) : ℤ))
  let main := (List.range max_exponent_bits).flatMap (fun i =>
    let fraction_items :=
      if signed then 2 ^ (i + non_sign_bits - max_exponent_bits) + 1
      else 2 ^ (i + non_sign_bits - max_exponent_bits + 1) + 1
    let means := midpoints (linspace (1/10) 1 fraction_items)
    means.map (fun m => factor i * m)
      ++ (if signed then means.map (fun m => -(factor i * m)) else []))
  let extra :=
    if additional_items > 0 then
      let means := midpoints (linspace (1/10) 1 (additional_items + 1))
      let i := max_exponent_bits - 1
      means.map (fun m => factor i * m)
        ++ (if signed then means.map (fun m => -(factor i * m)) else [])
    else []
  let data := main ++ extra ++ [0, 1]
  let gap := 256 - data.length
  tensorSort (data ++ List.replicate gap 0)

/-- Model of itertools.product([0, 1], repeat = p): all 0/1 lists of length p,
first coordinate slowest. -/
def bitPatterns : ℕ → List (List ℕ)
  | 0 => [[]]
  | p + 1 => [0, 1].flatMap (fun x => (bitPatterns p).map (fun r => x :: r))

/-- The value represented by one (evalue, bit_pattern) combination in
create_fp8_map (src/bitsandbytes/functional.py lines 278-291): leading
implicit bit for normals, fractional bits weighted 2^-(i+1), scaled by the
subnormal or normal exponent rule with bias 2^(exponent_bits - 1). -/
def fp8val (exponent_bits : ℕ) (evalue : ℕ) (bp : List ℕ) : ℚ :=
  let bias : ℤ := 2 ^ (exponent_bits - 1)
  let base : ℚ := (if evalue ≠ 0 then 1 else 0)
    + (bp.enum.map (fun p => (p.2 : ℚ) * (2 : ℚ) ^ (-((p.1 : ℤ) + 1)))).sum
  if evalue = 0 then base * (2 : ℚ) ^ (-bias)
  else base * (2 : ℚ) ^ (-((evalue : ℤ) - bias - 1))

/-- create_fp8_map(signed, exponent_bits, precision_bits, total_bits)
(src/bitsandbytes/functional.py lines 263-303): every (evalue, bit_pattern)
value with its negative when signed, sorted, padded to 256 with zeros when
total_bits < 8 and sorted again, then divided by the maximum.  (The unused
evalues/pvalues lists of the source are dead code and not modelled.) -/
def create_fp8_map (signed : Bool) (exponent_bits precision_bits total_bits : ℕ) :
    List ℚ :=
  let values := (List.range (2 ^ exponent_bits)).flatMap (fun ev =>
    (bitPatterns precision_bits).flatMap (fun bp =>
      let v := fp8val exponent_bits ev bp
      v :: (if signed then [-v] else [])))
  let sorted1 := tensorSort values
  let padded :=
    if total_bits < 8 then sorted1 ++ List.replicate (256 - sorted1.length) 0
    else sorted1
  let sorted2 := tensorSort padded
  sorted2.map (fun x => x / tensorMax sorted2)

/-- The raw signed fp8 value list at the default arguments of create_fp8_map
(signed=True, exponent_bits=5, precision_bits=2, total_bits=8); named
separately so the theorems below can refer to it. -/
def fp8DefaultValues : List ℚ :=
  (List.range 32).flatMap (fun ev =>
    (bitPatterns 2).flatMap (fun bp => [fp8val 5 ev bp, -(fp8val 5 ev bp)]))

/-- create_normal_map(offset, use_extra_value)
(src/bitsandbytes/functional.py lines 234-260), parametric in the normal
quantile function.  scipy.stats.norm.ppf is an external collaborator (not part
of the repository); it is modelled as an abstract function ppf, about which
the theorems assume only monotonicity and positivity above 1/2. -/
def create_normal_map (ppf : ℚ → ℚ) (offset : ℚ) (use_extra_value : Bool) : List ℚ :=
  let v1 :=
    if use_extra_value then ((linspace offset (1/2) 9).dropLast).map ppf
    else ((linspace offset (1/2) 8).dropLast).map ppf
  let v2 : List ℚ := List.replicate (if use_extra_value then 256 - 15 else 256 - 14) 0
  let v3 := ((linspace offset (1/2) 8).dropLast).map (fun p => -(ppf p))
  let sorted := tensorSort (v1 ++ v2 ++ v3)
  sorted.map (fun x => x / tensorMax sorted)

/-- The default offset argument of create_normal_map. -/
def normalMapOffset : ℚ := 0.9677083

/-- The unsorted value list built by create_normal_map at the default
arguments (use_extra_value=True), named separately for the theorems below. -/
def normalMapRaw (ppf : ℚ → ℚ) : List ℚ :=
  ((linspace normalMapOffset (1/2) 9).dropLast).map ppf
    ++ List.replicate (256 - 15) 0
    ++ ((linspace normalMapOffset (1/2) 8).dropLast).map (fun p => -(ppf p))

/-- The nf4 value table of get_4bit_type
(src/bitsandbytes/functional.py lines 935-952). -/
def nf4Data : List ℚ :=
  [-1.0, -0.6961928009986877, -0.5250730514526367, -0.39491748809814453,
   -0.28444138169288635, -0.18477343022823334, -0.09105003625154495, 0.0,
   0.07958029955625534, 0.16093020141124725, 0.24611230194568634,
   0.33791524171829224, 0.44070982933044434, 0.5626170039176941,
   0.7229568362236023, 1.0]

/-- The fp4 value table of get_4bit_type
(src/bitsandbytes/functional.py line 963), in bit-pattern order. -/
def fp4Data : List ℚ :=
  [0, 0.0625, 8.0, 12.0, 4.0, 6.0, 2.0, 3.0,
   -0, -0.0625, -8.0, -12.0, -4.0, -6.0, -2.0, -3.0]

/-- The int4 value table of get_4bit_type
(src/bitsandbytes/functional.py line 965). -/
def int4Data : List ℚ :=
  [7, 6, 5, 4, 3, 2, 1, 0, -0, -1, -2, -3, -4, -5, -6, -7]

/-- The af4 value table of get_4bit_type
(src/bitsandbytes/functional.py lines 970-987): an ascending literal list
reversed by the trailing [::-1]. -/
def af4Data : List ℚ :=
  [-1.0, -0.69441008, -0.51243739, -0.3736951, -0.25607552, -0.14982478,
   -0.04934812, 0.0, 0.04273164, 0.12934483, 0.21961274, 0.31675666,
   0.42563882, 0.55496234, 0.72424863, 1.0].reverse

/-- get_4bit_type(typename, blocksize)
(src/bitsandbytes/functional.py lines 920-999): the body begins with
`if device is None:` (line 921), reading the local variable device whose only
assignment in the function is on line 922; device is neither a parameter nor a
module global (no other binding of that name exists in functional.py).  Under
Python scoping the line-922 assignment makes device local to the whole
function, so line 921 raises UnboundLocalError on every call, before any table
is constructed: get_4bit_type never returns a table, and is modelled as an
unconditional error. -/
def get_4bit_type (typename : String) (blocksize : ℕ) : Except String (List ℚ) :=
  .error "UnboundLocalError: local variable device referenced before assignment"

/-- The table described by the unreachable remainder of get_4bit_type's body
(src/bitsandbytes/functional.py lines 923-999, dead code behind the
UnboundLocalError above): the raw value list selected by typename (none for an
unsupported typename, or for af4 with a blocksize other than 64), divided in
place by its maximum absolute value.  Kept to document what the source text
would build; the function never reaches it. -/
def get_4bit_type_table (typename : String) (blocksize : ℕ) : Option (List ℚ) :=
  let data : Option (List ℚ) :=
    if typename = "nf4" then some nf4Data
    else if typename = "fp4" then some fp4Data
    else if typename = "int4" then some int4Data
    else if typename = "af4" then (if blocksize = 64 then some af4Data else none)
    else none
  data.map (fun d => d.map (fun x => x / maxAbs d))

/-! ## C10 data: the matmul entry point

Source (src/bitsandbytes/autograd/_functions.py, matmul lines 577-590):

    state = state or MatmulLtState()
    if threshold > 0.0:
        state.threshold = threshold
    x = MatMul8bitLt()
    return x(A, B, out, bias, state)
-/

/-- Mirror of the MatmulLtState dataclass fields (tensors abstracted to
option-valued payloads; scale vectors and matrices as rational data). -/
structure MatmulLtState where
  tileIndices : Option (List ℤ) := none
  force_no_igemmlt : Bool := false
  CB : Option (List (List ℚ)) := none
  CxB : Option (List (List ℚ)) := none
  SB : Option (List ℕ × String) := none
  SCB : Option (List ℚ) := none
  CxBt : Option (List (List ℚ)) := none
  SBt : Option (List ℕ × String) := none
  CBt : Option (List (List ℚ)) := none
  subB : Option (List (List ℚ)) := none
  outlier_pool : Option Unit := none
  has_accumulated_gradients : Bool := false
  threshold : ℚ := 0
  idx : Option (List ℕ) := none
  is_training : Bool := true
  has_fp16_weights : Bool := true
  memory_efficient_backward : Bool := false
  use_pool : Bool := false
  formatB : String := "col_turing"
  deriving Repr, DecidableEq

/-- The state mutation performed by the public matmul entry point before it
invokes MatMul8bitLt.construct: the threshold argument is written into the
state only when it is strictly positive; nothing else is touched. -/
def matmulUpdateState (s : MatmulLtState) (threshold : ℚ) : MatmulLtState :=
  if threshold > 0 then { s with threshold := threshold } else s

/-! ## String containment (model of the Python `in` operator on str) -/

/-- Whether the first list is a prefix of the second (executable). -/
def listStartsWith : List Char → List Char → Bool
  | [], _ => true
  | _ :: _, [] => false
  | a :: as, b :: bs => a = b && listStartsWith as bs

/-- Whether the first list occurs contiguously inside the second (executable). -/
def listContainsSub (needle : List Char) : List Char → Bool
  | [] => needle.isEmpty
  | c :: rest => listStartsWith needle (c :: rest) || listContainsSub needle rest

/-- Model of the Python expression needle in hay on strings. -/
def strIn (needle hay : String) : Bool := listContainsSub needle.toList hay.toList

/-! ## C5 data: igemmlt capability check and path selection

Source (src/bitsandbytes/autograd/_functions.py):
  supports_igemmlt, lines 226-240;
  MatMul8bitLt.construct path selection, lines 325 and 424-444.
-/

/-- Python tuple comparison (major, minor) < (7, 5), lexicographic. -/
def capLt (a b : ℕ × ℕ) : Bool :=
  a.1 < b.1 || (a.1 = b.1 && a.2 < b.2)

/-- The GeForce 16 series device names blacklisted by supports_igemmlt. -/
def nvidia16Models : List String := ["GTX 1630", "GTX 1650", "GTX 1660"]

/-- supports_igemmlt (src/bitsandbytes/autograd/_functions.py lines 226-240):
false when the device capability is below (7, 5) or the device name contains a
GeForce 16 model string, true otherwise.  The capability pair and device name
(read from nvidia-smi by the source) are passed as arguments. -/
def supports_igemmlt (capability : ℕ × ℕ) (device_name : String) : Bool :=
  if capLt capability (7, 5) then false
  else if nvidia16Models.any (fun m => strIn m device_name) then false
  else true

/-- Model of Python prod(shape) (reduce with * starting from 1). -/
def prodShape (l : List ℕ) : ℕ := l.foldl (· * ·) 1

/-- The result shape of the empty-input short circuit
(src/bitsandbytes/autograd/_functions.py lines 333-336 and 534-537; the same
formula appears in MatMul8bitLt.construct with B.shape and in MatMul4Bit.forward
with quant_state.shape):
A.shape[:-1] + B.shape[1:] when A.shape[-1] == B.shape[0], else
A.shape[:-1] + B.shape[:1]. -/
def emptyMatmulShape (Ashape Bshape : List ℕ) : List ℕ :=
  if Ashape.getLastD 0 = Bshape.headD 0 then Ashape.dropLast ++ Bshape.tail
  else Ashape.dropLast ++ Bshape.take 1

/-- The shape formula exactly as the claim words it, in terms of the shape of
the second operand B (for comparison with the code, which on the 4-bit path
substitutes quant_state.shape). -/
def claimC4Shape (Ashape Bshape : List ℕ) : List ℕ :=
  if Ashape.getLastD 0 = Bshape.headD 0 then Ashape.dropLast ++ Bshape.tail
  else Ashape.dropLast ++ Bshape.take 1

/-- Model of ops.dense(A, W): A multiplied by the transpose of W; the inner
dimension K is passed explicitly since matrices are index functions. -/
def msDense (K : ℕ) (A W : ℕ → ℕ → ℚ) : ℕ → ℕ → ℚ :=
  fun i j => ((List.range K).map (fun k => A i k * W j k)).sum

/-- The statement A_wo_outliers[:, idx] = 0 of the fallback path
(src/bitsandbytes/autograd/_functions.py lines 436-438). -/
def zeroOutlierCols (A : ℕ → ℕ → ℚ) (idx : Option (List ℕ)) : ℕ → ℕ → ℚ :=
  match idx with
  | none => A
  | some l => fun i j => if j ∈ l then 0 else A i j

/-- The dense fallback output of MatMul8bitLt.construct
(src/bitsandbytes/autograd/_functions.py lines 435-444): the outlier columns of
A zeroed, a dense matmul against CB, scaled columnwise by SCB/127, plus the
bias when present. -/
def denseFallbackOutput (K : ℕ) (A CB : ℕ → ℕ → ℚ) (SCB : ℕ → ℚ)
    (idx : Option (List ℕ)) (bias : Option (ℕ → ℚ)) : ℕ → ℕ → ℚ :=
  fun i j =>
    let base := msDense K (zeroOutlierCols A idx) CB i j * (SCB j * (1 / 127))
    match bias with
    | none => base
    | some bv => base + bv j

/-- The three terminal outcomes of one MatMul8bitLt.construct call: the
empty-input short circuit with its result shape, the fast tiled int8 GEMM
path, or the dense fallback with its numeric output. -/
inductive MM8Result where
  | empty (shape : List ℕ)
  | fast
  | fallback (out : ℕ → ℕ → ℚ)

/-- The inputs of MatMul8bitLt.construct that decide its path: operand shapes,
the device capability and name consumed by supports_igemmlt, and the caller
state flag force_no_igemmlt. -/
structure MM8Env where
  Ashape : List ℕ
  Bshape : List ℕ
  capability : ℕ × ℕ
  deviceName : String
  force_no_igemmlt : Bool

/-- The control-flow skeleton of MatMul8bitLt.construct
(src/bitsandbytes/autograd/_functions.py lines 324-465): using_igemmlt is
computed first (line 325); a zero-element A short-circuits to an empty result
(lines 328-336); otherwise the tiled int8 GEMM runs iff using_igemmlt (line
424), and the dense fallback (lines 435-444) computes the output otherwise.
The numeric inputs of the fallback (A, the row-major quantized weight CB, the
scale vector SCB, the outlier index list and the bias) are passed alongside. -/
def matmul8bitlt_construct (env : MM8Env) (K : ℕ) (A CB : ℕ → ℕ → ℚ)
    (SCB : ℕ → ℚ) (idx : Option (List ℕ)) (bias : Option (ℕ → ℚ)) : MM8Result :=
  let using_igemmlt := supports_igemmlt env.capability env.deviceName
    && !env.force_no_igemmlt
  if prodShape env.Ashape = 0 then .empty (emptyMatmulShape env.Ashape env.Bshape)
  else if using_igemmlt then .fast
  else .fallback (denseFallbackOutput K A CB SCB idx bias)

/-- The empty-input short circuit of MatMul4Bit.forward
(src/bitsandbytes/autograd/_functions.py lines 526-537): when A has zero
elements the result shape is computed from quant_state.shape (the packed
tensor shape Bshape is not consulted); otherwise the forward continues (none
here). -/
def matmul4bit_forward_empty (Ashape Bshape QSshape : List ℕ) : Option (List ℕ) :=
  if prodShape Ashape = 0 then some (emptyMatmulShape Ashape QSshape) else none

/-! ## C2 data: tiled-layout inverse permutation

Source: get_inverse_transform_indices and undo_layout
(src/bitsandbytes/autograd/_functions.py lines 64-112), _get_tile_size
(lines 261-266).
-/

/-- The tile dimensions per layout format (_get_tile_size, lines 261-266;
unsupported formats hit the assert, modelled as none). -/
def tileSizeOf (format : String) : Option (ℕ × ℕ) :=
  if format = "col_turing" then some (8, 32)
  else if format = "col_ampere" then some (32, 32)
  else none

/-- Casting an integer to int8 and reading it back: wrap into [-128, 127]. -/
def int8wrap (z : ℤ) : ℤ := (z + 128) % 256 - 128

/-- The contribution of byte pass i at tile position p in
get_inverse_transform_indices: the i-th byte of the original linear index is
shifted into signed int8 range, moved by the transform (which carries the value
at position pi p to position p), shifted back, and re-weighted by 256^i. -/
def gitiPassTerm (pi : ℕ → ℕ) (i p : ℕ) : ℤ :=
  (int8wrap (((pi p / 256 ^ i % 256 : ℕ) : ℤ) - 128) + 128) * (256 : ℤ) ^ i

/-- The byte passes actually executed by the loop of
get_inverse_transform_indices: for i in range(8), with the early break when
d1*d2 < 256^i tested after the pass body. -/
def executedPassesAux (E : ℕ) : ℕ → ℕ → List ℕ
  | _, 0 => []
  | i, fuel + 1 => i :: (if E < 256 ^ i then [] else executedPassesAux E (i + 1) fuel)

/-- All executed byte passes (loop bound 8, starting at pass 0). -/
def executedPasses (E : ℕ) : List ℕ := executedPassesAux E 0 8

/-- get_inverse_transform_indices
(src/bitsandbytes/autograd/_functions.py lines 64-92) for a tile of E = d1*d2
positions, with the opaque forward transform given as the position permutation
pi (the transform writes the input value at position pi p to output position
p): the entry at position p accumulates the byte contributions of every
executed pass. -/
def get_inverse_transform_indices (E : ℕ) (pi : ℕ → ℕ) : ℕ → ℤ :=
  fun p => ((executedPasses E).map (fun i => gitiPassTerm pi i p)).sum

/-- The scatter outputs[tile_indices.flatten()] = tensor of undo_layout: the
row written last wins (Python advanced-indexing assignment order), rows never
written are uninitialized memory, modelled as 0. -/
def scatterRows (E : ℕ) (T : ℕ → ℤ) (tensor : ℕ → ℕ → ℤ) : ℕ → ℕ → ℤ :=
  fun q t =>
    match (List.range E).reverse.find? (fun p => decide (T p = (q : ℤ))) with
    | some p => tensor p t
    | none => 0

/-- undo_layout (src/bitsandbytes/autograd/_functions.py lines 95-112),
pointwise.  The source computes
  tensor = permuted_tensor.reshape(-1, E).t()          (tensor[p][t] = buf[t*E+p])
  outputs[tile_indices.flatten()] = tensor             (scatterRows)
  outputs.reshape(tr, tc, cols//tc, rows//tr).permute(3, 0, 2, 1).reshape(rows, cols)
so the row-major entry at (row, col) with row = d*tr + a, col = c*tc + b reads
outputs at in-tile position a*tc + b and tile index c*(rows//tr) + d. -/
def undo_layout (rows cols tr tc : ℕ) (T : ℕ → ℤ) (buf : ℕ → ℤ) : ℕ → ℕ → ℤ :=
  fun row col =>
    let E := tr * tc
    scatterRows E T (fun p t => buf (t * E + p))
      ((row % tr) * tc + col % tc)
      ((col / tc) * (rows / tr) + row / tr)

/-- Modelled from the spec: the forward tiled transform (the native
ctransform_row2turing / ctransform_row2ampere kernels behind F.transform are
the opaque compute backend, §4.4 of the spec): it applies a fixed permutation
pi to the positions of each tr x tc tile (output position p receives input
position pi p) and lays complete tiles out consecutively in column-block-major
order (tile index cb * nrb + rb), which is the layout undo_layout reassembles. -/
def forward_tiled (tr tc nrb : ℕ) (pi : ℕ → ℕ) (M : ℕ → ℕ → ℤ) : ℕ → ℤ :=
  fun f =>
    let E := tr * tc
    let t := f / E
    let p := f % E
    let q := pi p
    M ((t % nrb) * tr + q / tc) ((t / nrb) * tc + q % tc)

/-! ## C3 data: outlier column handling in MatMul8bitLt.construct

Source (src/bitsandbytes/autograd/_functions.py lines 357-365):

    if state.threshold > 0.0 and coo_tensorA is not None:
        if state.has_fp16_weights:
            _, idx = ops.unique(coo_tensorA.colidx)
            idx.astype(mindspore.int64)
            CA[:, idx] = 0
            CAt[:, idx] = 0
            subA = A[:, idx]
            state.subB = B[:, idx].t()
            state.idx = idx
-/

/-- Model of mindspore.ops.unique (an external framework primitive): returns
the unique values in first-occurrence order together with, for every input
element, the index of that element inside the unique-value list (the inverse
index array).  This is the documented two-tuple return of ops.unique; the
second component is what line 359 binds to idx. -/
def msUnique (l : List ℤ) : List ℤ × List ℕ :=
  let values := l.foldl (fun acc x => if x ∈ acc then acc else acc ++ [x]) []
  (values, l.map (fun x => values.indexOf x))

/-- The column index list that MatMul8bitLt.construct actually uses for
zeroing and extraction in the has_fp16_weights branch: the second component of
ops.unique over the detected outlier column indices. -/
def construct_outlier_idx (colidx : List ℤ) : List ℕ :=
  (msUnique colidx).2

/-- The slice assignment CA[:, idx] = 0 on an int8 matrix. -/
def zeroCols (M : ℕ → ℕ → ℤ) (idx : List ℕ) : ℕ → ℕ → ℤ :=
  fun r c => if c ∈ idx then 0 else M r c

/-- CA after the outlier-zeroing statements of construct, as a function of the
detected outlier column indices colidx (coo_tensorA.colidx). -/
def construct_CA_after_outliers (CA : ℕ → ℕ → ℤ) (colidx : List ℤ) : ℕ → ℕ → ℤ :=
  zeroCols CA (construct_outlier_idx colidx)

/-! ## C6 data: blockwise quantization with nested statistics

Source: quantize_blockwise (src/bitsandbytes/functional.py lines 708-815) and
dequantize_blockwise (lines 818-917).  The per-element kernels
(cquantize_blockwise_* / cdequantize_blockwise_*) are the opaque compute
backend and are modelled from the spec (sections 4.2 and 4.3).
-/

/-- Nearest-value lookup of x in the codebook: the index minimizing the
absolute difference, ties toward the lower index (spec section 4.2).
Modelled from the spec: part of the native quantize kernel. -/
def nearestIdx (code : List ℚ) (x : ℚ) : ℕ :=
  (List.range code.length).foldl
    (fun best i => if |code.getD i 0 - x| < |code.getD best 0 - x| then i else best) 0

/-- The input split into contiguous blocks of bs elements, last block short. -/
def chunkList (bs : ℕ) (l : List ℚ) : List (List ℚ) :=
  match l with
  | [] => []
  | x :: xs =>
    match bs with
    | 0 => [x :: xs]
    | b + 1 => (x :: xs).take (b + 1) :: chunkList (b + 1) ((x :: xs).drop (b + 1))
termination_by l.length
decreasing_by simp; omega

/-- Modelled from the spec: the non-nested blockwise quantize kernel (spec
section 4.2).  Per block of bs elements the scale is the maximum absolute
value; each element is mapped to the nearest codebook index of value/scale,
with an all-zero block mapping every element to the index nearest zero.
Returns (packed index codes, per-block absmax array). -/
def quantize_blockwise_raw (code : List ℚ) (bs : ℕ) (A : List ℚ) :
    List ℕ × List ℚ :=
  let blocks := chunkList bs A
  let absmax := blocks.map maxAbs
  let out := blocks.flatMap (fun blk =>
    let s := maxAbs blk
    blk.map (fun x => nearestIdx code (if s = 0 then 0 else x / s)))
  (out, absmax)

/-- Modelled from the spec: the non-nested blockwise dequantize kernel (spec
section 4.3): every code is looked up in the codebook and rescaled by the
absmax entry of its block. -/
def dequantize_blockwise_raw (code : List ℚ) (bs : ℕ) (absmax : List ℚ)
    (codes : List ℕ) : List ℚ :=
  codes.mapIdx (fun i c => code.getD c 0 * absmax.getD (i / bs) 0)

/-- The default dynamic codebook used by quantize_blockwise when no code is
passed (name2qmap["dynamic"], src/bitsandbytes/functional.py lines 742-745). -/
def dynamicCode : List ℚ := create_dynamic_map true 7 8

/-- The nested quantization state produced by quantize_blockwise(nested=True)
(src/bitsandbytes/functional.py lines 800-811): the quantized absmax codes,
the inner state2 absmax array and blocksize, the outer blocksize, and the
offset subtracted before the nested quantization. -/
structure NestedQuantState where
  qabsmax : List ℕ
  inner_absmax : List ℚ
  inner_blocksize : ℕ
  outer_blocksize : ℕ
  offset : ℚ
  deriving Repr, DecidableEq

/-- quantize_blockwise with nested=True
(src/bitsandbytes/functional.py lines 747-815): quantize A blockwise, then
offset = absmax.mean(), absmax -= offset, and the shifted absmax array is
itself blockwise-quantized by the recursive call
quantize_blockwise(absmax, blocksize=blocksize) - the same blocksize as the
outer call, with the default dynamic codebook since no code is passed. -/
def quantize_blockwise_nested (code : List ℚ) (bs : ℕ) (A : List ℚ) :
    List ℕ × NestedQuantState :=
  let r := quantize_blockwise_raw code bs A
  let offset := tensorMean r.2
  let shifted := r.2.map (fun v => v - offset)
  let r2 := quantize_blockwise_raw dynamicCode bs shifted
  (r.1, ⟨r2.1, r2.2, bs, bs, offset⟩)

/-- dequantize_blockwise on a nested state
(src/bitsandbytes/functional.py lines 861-866): the stored absmax codes are
dequantized with the inner state and the offset is added back before the
elements are rescaled. -/
def dequantize_blockwise_nested (code : List ℚ) (st : NestedQuantState)
    (codes : List ℕ) : List ℚ :=
  let absmax := dequantize_blockwise_raw dynamicCode st.inner_blocksize
    st.inner_absmax st.qabsmax
  let absmax2 := absmax.map (fun v => v + st.offset)
  dequantize_blockwise_raw code st.outer_blocksize absmax2 codes

/-! ## C7 data: output shape and dtype of the dequantizers -/

/-- The tensor element dtypes dispatched on by the dequantizers. -/
inductive MSDType where
  | f32
  | f16
  | bf16
  deriving Repr, DecidableEq

/-- Output shape and dtype of dequantize_blockwise when a QuantState is given
(src/bitsandbytes/functional.py lines 868-869):
out = Tensor(np.empty(A.shape), dtype=quant_state.dtype) - the shape comes
from the packed input A, the dtype from the state (which stores no shape for
8-bit blockwise quantization). -/
def dequantize_blockwise_out_meta (Ashape : List ℕ) (state_dtype : MSDType) :
    List ℕ × MSDType := (Ashape, state_dtype)

/-- Output shape of dequantize_4bit when a QuantState is given
(src/bitsandbytes/functional.py lines 1248-1249 and 1313-1317):
out = Tensor(np.empty(quant_state.shape), dtype=quant_state.dtype), and when
A.shape[0] == 1 the result is returned transposed (out.t(), the shape
reversed for the 2-d states produced by quantize_4bit). -/
def dequantize_4bit_out_shape (Ashape stShape : List ℕ) : List ℕ :=
  if Ashape.headD 0 = 1 then stShape.reverse else stShape

/-! ## C8 data: QuantState serialization

Source: QuantState.as_dict (src/bitsandbytes/functional.py lines 652-682) and
QuantState.from_dict (lines 601-650).  pack_dict_to_tensor /
unpack_tensor_to_dict live in bitsandbytes/utils.py, which is not part of the
provided sources; they are modelled from the spec (section 6: non-tensor
fields are packed into one auxiliary tensor-typed blob and unpacked losslessly)
by the blob constructor below.
-/

/-- The values appearing in a serialized quant-state dict: tensors, the packed
blob (tensor-typed, holding the non-tensor entries), strings, ints, shape
tuples and floats. -/
inductive QSVal where
  | tensor (data : List ℚ)
  | blob (entries : List (String × QSVal))
  | str (s : String)
  | nat (n : ℕ)
  | shape (l : List ℕ)
  | float (q : ℚ)

/-- isinstance(v, mindspore.Tensor) for dict values: true for tensors and for
the packed blob (pack_dict_to_tensor returns a uint8 tensor). -/
def isTensorVal : QSVal → Bool
  | .tensor _ => true
  | .blob _ => true
  | _ => false

/-- The fields of a nested state2 as serialized (absmax, codebook, blocksize,
dtype). -/
structure InnerQS where
  absmax : List ℚ
  code : List ℚ
  blocksize : ℕ
  dtype : String
  deriving Repr, DecidableEq

/-- The QuantState fields taking part in serialization, with tensors as
rational lists and dtypes as their serialized names. -/
structure QuantStateRec where
  absmax : List ℚ
  shape : List ℕ
  code : List ℚ
  blocksize : ℕ
  quant_type : String
  dtype : String
  offset : Option ℚ
  state2 : Option InnerQS
  deriving Repr, DecidableEq

/-- QuantState.as_dict(packed=False)
(src/bitsandbytes/functional.py lines 657-676): the flat key/value dict, with
the nested entries appended when the state is nested (state2 present). -/
def as_dict_unpacked (s : QuantStateRec) : List (String × QSVal) :=
  [("quant_type", .str s.quant_type),
   ("absmax", .tensor s.absmax),
   ("blocksize", .nat s.blocksize),
   ("quant_map", .tensor s.code),
   ("dtype", .str s.dtype),
   ("shape", .shape s.shape)]
  ++ (match s.state2, s.offset with
      | some st2, some off =>
        [("nested_absmax", .tensor st2.absmax),
         ("nested_blocksize", .nat st2.blocksize),
         ("nested_quant_map", .tensor st2.code),
         ("nested_dtype", .str st2.dtype),
         ("nested_offset", .float off)]
      | _, _ => [])

/-- QuantState.as_dict(packed=True)
(src/bitsandbytes/functional.py lines 678-682): the tensor-valued entries,
plus the non-tensor entries packed into one blob under
quant_state.bitsandbytes__<quant_type>. -/
def as_dict_packed (s : QuantStateRec) : List (String × QSVal) :=
  let qs_dict := as_dict_unpacked s
  qs_dict.filter (fun kv => isTensorVal kv.2)
    ++ [("quant_state.bitsandbytes__" ++ s.quant_type,
         .blob (qs_dict.filter (fun kv => !isTensorVal kv.2)))]

/-- The quant-state type keys accepted by from_dict
(valid_qs_type_keys, src/bitsandbytes/functional.py line 544). -/
def valid_qs_type_keys : List String := ["bitsandbytes__fp4", "bitsandbytes__nf4"]

/-- The full key set accepted by from_dict (valid_qs_keys, lines 545-558). -/
def valid_qs_keys : List String :=
  ["absmax", "quant_map", "nested_absmax", "nested_quant_map", "quant_state",
   "quant_type", "blocksize", "dtype", "shape", "nested_blocksize",
   "nested_dtype", "nested_offset"]

/-- Python dict lookup over the modelled association list (later entries
added by dict.update shadow earlier ones, hence the reversed search). -/
def qsLookup (d : List (String × QSVal)) (k : String) : Option QSVal :=
  (d.reverse.find? (fun kv => kv.1 = k)).map (fun kv => kv.2)

/-- k.split(".")[-1]: the last dot-separated component of a key. -/
def lastKeyComponent (k : String) : String := (k.splitOn ".").getLastD k

/-- QuantState.from_dict (src/bitsandbytes/functional.py lines 601-650).
The validation gate mirrors the source exactly: qs_key collects the
tensor-valued entries whose key contains "quant_state"; the call raises
(models as .error) when there is no such entry and no quant_type key, and
then raises whenever the number of such entries differs from one - including
the unpacked case qs_key == [].  On the surviving path the packed blob is
popped and merged, prefixes are stripped, the key set is checked against
valid_qs_keys, and the state is rebuilt (nested first when nested_absmax is
present). -/
def from_dict (d : List (String × QSVal)) : Except String QuantStateRec :=
  let qs_key := d.filter (fun kv => strIn "quant_state" kv.1 && isTensorVal kv.2)
  if qs_key.length = 0 && !(d.any (fun kv => kv.1 = "quant_type")) then
    .error "Expected packed or unpacked quant_state items, found neither"
  else if qs_key.length ≠ 1 then
    .error "There should be exactly one quant_state item with ending from valid_qs_type_keys"
  else
    match qs_key with
    | (k0, .blob entries) :: _ =>
      if ¬ (valid_qs_type_keys.contains (lastKeyComponent k0)) then
        .error "There should be exactly one quant_state item with ending from valid_qs_type_keys"
      else
        let merged := d.filter (fun kv => kv.1 ≠ k0) ++ entries
        let stripped := merged.map (fun kv => (lastKeyComponent kv.1, kv.2))
        if ¬ (stripped.all (fun kv => valid_qs_keys.contains kv.1)) then
          .error "assert: unexpected key"
        else
          let nested := match qsLookup stripped "nested_absmax",
              qsLookup stripped "nested_blocksize",
              qsLookup stripped "nested_quant_map",
              qsLookup stripped "nested_dtype",
              qsLookup stripped "nested_offset" with
            | some (.tensor na), some (.nat nb), some (.tensor nq),
              some (.str nd), some (.float off) =>
                some (off, InnerQS.mk na nq nb nd)
            | _, _, _, _, _ => none
          match qsLookup stripped "quant_type", qsLookup stripped "absmax",
              qsLookup stripped "blocksize", qsLookup stripped "quant_map",
              qsLookup stripped "dtype", qsLookup stripped "shape" with
          | some (.str qt), some (.tensor am), some (.nat bsz),
            some (.tensor qm), some (.str dt), some (.shape sh) =>
              .ok ⟨am, sh, qm, bsz, qt, dt, nested.map (fun x => x.1),
                nested.map (fun x => x.2)⟩
          | _, _, _, _, _, _ => .error "KeyError"
    | (k0, _) :: _ =>
      if ¬ (valid_qs_type_keys.contains (lastKeyComponent k0)) then
        .error "There should be exactly one quant_state item with ending from valid_qs_type_keys"
      else .error "unpack_tensor_to_dict: not a packed tensor"
    | [] => .error "unreachable"

/-! # Lemmas and theorems -/

/-! ## Helper lemmas about tensorMax and linspace -/

theorem foldl_max_mem (a : ℚ) (l : List ℚ) : l.foldl max a ∈ a :: l := by
  induction l generalizing a with
  | nil => simp
  | cons y ys ih =>
    simp only [List.foldl_cons]
    rcases List.mem_cons.mp (ih (max a y)) with h | h
    · rcases max_choice a y with hm | hm
      · rw [h, hm]; exact List.mem_cons_self _ _
      · rw [h, hm]; exact List.mem_cons_of_mem _ (List.mem_cons_self _ _)
    · exact List.mem_cons_of_mem _ (List.mem_cons_of_mem _ h)

theorem le_foldl_max (a : ℚ) (l : List ℚ) : ∀ x ∈ a :: l, x ≤ l.foldl max a := by
  induction l generalizing a with
  | nil => intro x hx; simp at hx; simp [hx]
  | cons y ys ih =>
    intro x hx
    simp only [List.foldl_cons]
    have hbase : max a y ≤ List.foldl max (max a y) ys :=
      ih (max a y) _ (List.mem_cons_self _ _)
    rcases List.mem_cons.mp hx with rfl | h
    · exact le_trans (le_max_left x y) hbase
    · rcases List.mem_cons.mp h with rfl | h2
      · exact le_trans (le_max_right a x) hbase
      · exact ih (max a y) x (List.mem_cons_of_mem _ h2)

theorem tensorMax_mem {l : List ℚ} (h : l ≠ []) : tensorMax l ∈ l := by
  cases l with
  | nil => exact absurd rfl h
  | cons x xs => exact foldl_max_mem x xs

theorem le_tensorMax {l : List ℚ} {x : ℚ} (h : x ∈ l) : x ≤ tensorMax l := by
  cases l with
  | nil => simp at h
  | cons y ys => exact le_foldl_max y ys x h

theorem tensorMax_eq_of {l : List ℚ} {a : ℚ} (hmem : a ∈ l)
    (hle : ∀ x ∈ l, x ≤ a) : tensorMax l = a :=
  le_antisymm (hle _ (tensorMax_mem (List.ne_nil_of_mem hmem))) (le_tensorMax hmem)

theorem maxAbs_eq_of {l : List ℚ} {a : ℚ} (hmem : ∃ x ∈ l, |x| = a)
    (hle : ∀ x ∈ l, |x| ≤ a) : maxAbs l = a := by
  obtain ⟨x, hx, hxa⟩ := hmem
  exact tensorMax_eq_of (hxa ▸ List.mem_map_of_mem _ hx)
    (by intro y hy; obtain ⟨z, hz, rfl⟩ := List.mem_map.mp hy; exact hle z hz)

theorem maxAbs_nonneg (l : List ℚ) : 0 ≤ maxAbs l := by
  cases l with
  | nil => simp [maxAbs, tensorMax]
  | cons x xs =>
    exact le_trans (abs_nonneg x) (le_tensorMax (List.mem_map_of_mem _ (List.mem_cons_self _ _)))

/-- Dividing a list by its maximum absolute value renormalizes the maximum
absolute value to exactly 1, provided the list has a nonzero entry. -/
theorem maxAbs_div_maxAbs {l : List ℚ} (h : 0 < maxAbs l) :
    maxAbs (l.map (fun x => x / maxAbs l)) = 1 := by
  have hne : l ≠ [] := by
    intro he; rw [he] at h; simp [maxAbs, tensorMax] at h
  have hmem : maxAbs l ∈ l.map (fun x => |x|) := tensorMax_mem (by simp [hne])
  obtain ⟨x0, hx0, hx0a⟩ := List.mem_map.mp hmem
  apply maxAbs_eq_of
  · refine ⟨x0 / maxAbs l, List.mem_map_of_mem _ hx0, ?_⟩
    rw [abs_div, hx0a, abs_of_pos h, div_self (ne_of_gt h)]
  · intro y hy
    obtain ⟨z, hz, rfl⟩ := List.mem_map.mp hy
    rw [abs_div, abs_of_pos h, div_le_one h]
    exact le_tensorMax (List.mem_map_of_mem _ hz)

/-- Dividing a list by its maximum renormalizes the maximum absolute value to
exactly 1, provided the maximum is positive and bounds all absolute values. -/
theorem maxAbs_div_tensorMax {l : List ℚ} (hpos : 0 < tensorMax l)
    (habs : ∀ x ∈ l, |x| ≤ tensorMax l) :
    maxAbs (l.map (fun x => x / tensorMax l)) = 1 := by
  have hne : l ≠ [] := by
    intro he; rw [he] at hpos; simp [tensorMax] at hpos
  apply maxAbs_eq_of
  · refine ⟨tensorMax l / tensorMax l, List.mem_map_of_mem _ (tensorMax_mem hne), ?_⟩
    rw [div_self (ne_of_gt hpos), abs_one]
  · intro y hy
    obtain ⟨z, hz, rfl⟩ := List.mem_map.mp hy
    rw [abs_div, abs_of_pos hpos, div_le_one hpos]
    exact habs z hz

theorem sorted_map_div {l : List ℚ} {m : ℚ} (hm : 0 < m)
    (h : List.Sorted (· ≤ ·) l) : List.Sorted (· ≤ ·) (l.map (fun x => x / m)) :=
  List.Pairwise.map _ (fun _ _ hab => div_le_div_of_nonneg_right hab hm.le) h

theorem sorted_tensorSort (l : List ℚ) : List.Sorted (· ≤ ·) (tensorSort l) :=
  List.sorted_insertionSort _ l

theorem mem_tensorSort {l : List ℚ} {x : ℚ} : x ∈ tensorSort l ↔ x ∈ l :=
  List.mem_insertionSort _

theorem length_tensorSort (l : List ℚ) : (tensorSort l).length = l.length :=
  List.length_insertionSort _ l

/-- Every point of linspace a b n lies between a and b (ascending case). -/
theorem linspace_bounds {a b : ℚ} (hab : a ≤ b) (n : ℕ) :
    ∀ x ∈ linspace a b n, a ≤ x ∧ x ≤ b := by
  intro x hx
  simp only [linspace, List.mem_map, List.mem_range] at hx
  obtain ⟨k, hk', rfl⟩ := hx
  rcases Nat.eq_zero_or_pos (n - 1) with h | h
  · rw [h]
    have hk0 : k = 0 := by omega
    subst hk0
    simp [hab]
  · have hd : (0 : ℚ) < ((n - 1 : ℕ) : ℚ) := by exact_mod_cast h
    have hkd : (k : ℚ) ≤ ((n - 1 : ℕ) : ℚ) := by
      have : k ≤ n - 1 := by omega
      exact_mod_cast this
    have hterm0 : 0 ≤ (b - a) * (k : ℚ) / ((n - 1 : ℕ) : ℚ) := by
      apply div_nonneg (mul_nonneg (by linarith) (by positivity)) (le_of_lt hd)
    have hterm1 : (b - a) * (k : ℚ) / ((n - 1 : ℕ) : ℚ) ≤ b - a := by
      rw [div_le_iff hd]
      have := mul_le_mul_of_nonneg_left hkd (sub_nonneg.mpr hab)
      linarith
    constructor <;> linarith

/-- Every point of linspace a b n lies between b and a (descending case). -/
theorem linspace_bounds_desc {a b : ℚ} (hab : b ≤ a) (n : ℕ) :
    ∀ x ∈ linspace a b n, b ≤ x ∧ x ≤ a := by
  intro x hx
  simp only [linspace, List.mem_map, List.mem_range] at hx
  obtain ⟨k, hk', rfl⟩ := hx
  rcases Nat.eq_zero_or_pos (n - 1) with h | h
  · rw [h]
    have hk0 : k = 0 := by omega
    subst hk0
    simp [hab]
  · have hd : (0 : ℚ) < ((n - 1 : ℕ) : ℚ) := by exact_mod_cast h
    have hkd : (k : ℚ) ≤ ((n - 1 : ℕ) : ℚ) := by
      have : k ≤ n - 1 := by omega
      exact_mod_cast this
    have hterm0 : (b - a) * (k : ℚ) / ((n - 1 : ℕ) : ℚ) ≤ 0 := by
      apply div_nonpos_of_nonpos_of_nonneg
        (mul_nonpos_of_nonpos_of_nonneg (by linarith) (by positivity)) (le_of_lt hd)
    have hterm1 : b - a ≤ (b - a) * (k : ℚ) / ((n - 1 : ℕ) : ℚ) := by
      rw [le_div_iff hd]
      have := mul_le_mul_of_nonneg_left hkd (by linarith : (0:ℚ) ≤ a - b)
      nlinarith
    constructor <;> linarith

/-- The k-th linspace point as a function of k is monotone when a ≤ b. -/
theorem linspace_monotone {a b : ℚ} (hab : a ≤ b) (n : ℕ) {j k : ℕ} (hjk : j ≤ k) :
    a + (b - a) * (j : ℚ) / ((n - 1 : ℕ) : ℚ) ≤
      a + (b - a) * (k : ℚ) / ((n - 1 : ℕ) : ℚ) := by
  rcases Nat.eq_zero_or_pos (n - 1) with h | h
  · rw [h]; simp
  · have hd : (0 : ℚ) < ((n - 1 : ℕ) : ℚ) := by exact_mod_cast h
    have hjk' : (j : ℚ) ≤ (k : ℚ) := by exact_mod_cast hjk
    have h2 := mul_le_mul_of_nonneg_left hjk' (sub_nonneg.mpr hab)
    have h3 := div_le_div_of_nonneg_right h2 hd.le
    linarith

theorem linspace_sorted {a b : ℚ} (hab : a ≤ b) (n : ℕ) :
    List.Sorted (· ≤ ·) (linspace a b n) := by
  rw [linspace]
  exact List.Pairwise.map _ (fun j k hjk => linspace_monotone hab n (le_of_lt hjk))
    (List.pairwise_lt_range n)

theorem linspace_length (a b : ℚ) (n : ℕ) : (linspace a b n).length = n := by
  rw [linspace, List.length_map, List.length_range]

/-- The first point of a linspace with at least one point is the start. -/
theorem linspace_head {a b : ℚ} {n : ℕ} (hn : 0 < n) :
    ∃ l, linspace a b n = a :: l ∧ l.length = n - 1 := by
  cases n with
  | zero => omega
  | succ m =>
    refine ⟨(List.range' 1 m).map
      (fun k : ℕ => a + (b - a) * (k : ℚ) / ((m + 1 - 1 : ℕ) : ℚ)), ?_, ?_⟩
    · rw [linspace, List.range_eq_range', List.range'_succ]
      simp
    · simp

/-- Bounds for midpoints: every midpoint of a list with entries in [lo, hi]
is itself in [lo, hi]. -/
theorem midpoints_bounds {l : List ℚ} {lo hi : ℚ}
    (h : ∀ x ∈ l, lo ≤ x ∧ x ≤ hi) :
    ∀ m ∈ midpoints l, lo ≤ m ∧ m ≤ hi := by
  intro m hm
  obtain ⟨⟨p, q⟩, hpq, rfl⟩ := List.mem_map.mp hm
  obtain ⟨hp, hq⟩ := List.mem_zip hpq
  obtain ⟨hp1, hp2⟩ := h p hp
  obtain ⟨hq1, hq2⟩ := h q (List.mem_of_mem_tail hq)
  constructor <;> simp <;> linarith

/-! ## Codebook properties (claim C1) -/

theorem create_dynamic_map_length : (create_dynamic_map true 7 8).length = 256 := by
  simp only [create_dynamic_map]
  rw [length_tensorSort]
  decide

theorem create_dynamic_map_sorted :
    List.Sorted (· ≤ ·) (create_dynamic_map true 7 8) := by
  simp only [create_dynamic_map]
  exact sorted_tensorSort _

theorem create_dynamic_map_abs_le :
    ∀ x ∈ create_dynamic_map true 7 8, |x| ≤ 1 := by
  intro x hx
  simp only [create_dynamic_map, mem_tensorSort, List.mem_append, List.mem_flatMap,
    List.mem_range, List.mem_replicate, List.mem_map, List.mem_cons,
    List.not_mem_nil, if_true, if_false, Nat.sub_self, pow_zero] at hx
  have hfac : ∀ i : ℕ, i < 7 → ∀ m ∈ midpoints (linspace (1/10) 1 (2 ^ (i + (8 - 1) - 7) + 1)),
      |(10:ℚ) ^ ((i : ℤ) - ((7 - 1 : ℕ) : ℤ)) * m| ≤ 1 := by
    intro i hi m hm
    have hmb := midpoints_bounds (linspace_bounds (by norm_num) _) m hm
    have hface : (0:ℚ) < (10:ℚ) ^ ((i : ℤ) - ((7 - 1 : ℕ) : ℤ)) :=
      zpow_pos (by norm_num) _
    have hface1 : (10:ℚ) ^ ((i : ℤ) - ((7 - 1 : ℕ) : ℤ)) ≤ 1 := by
      apply zpow_le_one_of_nonpos₀ (by norm_num)
      have : (i : ℤ) ≤ 6 := by exact_mod_cast Nat.lt_succ_iff.mp hi
      omega
    rw [abs_mul, abs_of_pos hface, abs_of_nonneg (by linarith [hmb.1] : (0:ℚ) ≤ m)]
    calc (10:ℚ) ^ ((i : ℤ) - ((7 - 1 : ℕ) : ℤ)) * m
        ≤ 1 * 1 := by
          apply mul_le_mul hface1 hmb.2 (by linarith [hmb.1]) (by norm_num)
      _ = 1 := by norm_num
  rcases hx with ((⟨i, hi, (⟨m, hm, rfl⟩ | ⟨m, hm, rfl⟩)⟩ | hif) | (rfl | rfl | hF)) | ⟨-, rfl⟩
  · exact hfac i hi m hm
  · rw [abs_neg]; exact hfac i hi m hm
  · rw [if_neg (by norm_num : ¬ ((0:ℕ) > 0))] at hif
    simp at hif
  · norm_num
  · norm_num
  · exact hF.elim
  · norm_num

theorem create_dynamic_map_maxAbs : maxAbs (create_dynamic_map true 7 8) = 1 := by
  apply maxAbs_eq_of
  · refine ⟨1, ?_, by norm_num⟩
    simp [create_dynamic_map, mem_tensorSort]
  · exact create_dynamic_map_abs_le

theorem create_linear_map_eq :
    create_linear_map true 8 true =
      (linspace (-1) 1 255).take 127 ++ List.replicate 1 0 ++
        (linspace (-1) 1 255).drop 127 := by
  simp only [create_linear_map, linspace_length]
  norm_num

theorem linear_take_le :
    ∀ x ∈ (linspace (-1) 1 255).take 127, x ≤ 0 := by
  intro x hx
  rw [linspace, ← List.map_take, List.take_range] at hx
  obtain ⟨k, hk, rfl⟩ := List.mem_map.mp hx
  have hk' : k < 127 := by simpa using List.mem_range.mp hk
  have hmono := linspace_monotone (by norm_num : (-1:ℚ) ≤ 1) 255 (le_of_lt hk')
  have h127 : (-1 : ℚ) + (1 - (-1)) * ((127:ℕ) : ℚ) / ((255 - 1 : ℕ) : ℚ) = 0 := by
    norm_num
  calc (-1 : ℚ) + (1 - (-1)) * (k : ℚ) / ((255 - 1 : ℕ) : ℚ)
      ≤ (-1 : ℚ) + (1 - (-1)) * ((127:ℕ) : ℚ) / ((255 - 1 : ℕ) : ℚ) := hmono
    _ = 0 := h127

theorem linear_drop_ge :
    ∀ y ∈ (linspace (-1) 1 255).drop 127, 0 ≤ y := by
  intro y hy
  rw [linspace, ← List.map_drop,
    (by norm_num : (255 : ℕ) = 127 + 128), List.range_add,
    List.drop_left' (List.length_range 127)] at hy
  obtain ⟨j, hj, rfl⟩ := List.mem_map.mp hy
  obtain ⟨k, hk, rfl⟩ := List.mem_map.mp hj
  have hmono := linspace_monotone (by norm_num : (-1:ℚ) ≤ 1) (127 + 128)
    (Nat.le_add_right 127 k)
  have h127 : (-1 : ℚ) + (1 - (-1)) * ((127:ℕ) : ℚ) / ((127 + 128 - 1 : ℕ) : ℚ) = 0 := by
    norm_num
  calc (0 : ℚ) = (-1 : ℚ) + (1 - (-1)) * ((127:ℕ) : ℚ) / ((127 + 128 - 1 : ℕ) : ℚ) :=
        h127.symm
    _ ≤ (-1 : ℚ) + (1 - (-1)) * ((127 + k : ℕ) : ℚ) / ((127 + 128 - 1 : ℕ) : ℚ) := hmono

theorem create_linear_map_length : (create_linear_map true 8 true).length = 256 := by
  rw [create_linear_map_eq]
  simp [linspace_length]

theorem create_linear_map_sorted :
    List.Sorted (· ≤ ·) (create_linear_map true 8 true) := by
  rw [create_linear_map_eq]
  have hs := linspace_sorted (by norm_num : (-1:ℚ) ≤ 1) 255
  refine List.pairwise_append.mpr
    ⟨?_, List.Pairwise.sublist (List.drop_sublist _ _) hs, ?_⟩
  · refine List.pairwise_append.mpr
      ⟨List.Pairwise.sublist (List.take_sublist _ _) hs, by simp, ?_⟩
    intro a ha b hb
    have hb0 : b = 0 := by simpa using hb
    subst hb0
    exact linear_take_le a ha
  · intro a ha b hb
    have hb' : 0 ≤ b := linear_drop_ge b hb
    rcases List.mem_append.mp ha with ha | ha
    · exact le_trans (linear_take_le a ha) hb'
    · have : a = 0 := by simpa using ha
      subst this; exact hb'

theorem create_linear_map_maxAbs : maxAbs (create_linear_map true 8 true) = 1 := by
  have hbounds := linspace_bounds (by norm_num : (-1:ℚ) ≤ 1) 255
  apply maxAbs_eq_of
  · refine ⟨1, ?_, by norm_num⟩
    have h1 : (1 : ℚ) ∈ linspace (-1) 1 255 := by
      rw [linspace]
      refine List.mem_map.mpr ⟨254, by simp, ?_⟩
      norm_num
    rw [create_linear_map_eq]
    have hv : (1:ℚ) ∈ (linspace (-1) 1 255).take 127 ++ (linspace (-1) 1 255).drop 127 := by
      rw [List.take_append_drop]; exact h1
    rcases List.mem_append.mp hv with h | h
    · exact List.mem_append_left _ (List.mem_append_left _ h)
    · exact List.mem_append_right _ h
  · intro x hx
    rw [create_linear_map_eq] at hx
    rcases List.mem_append.mp hx with hx | hx
    · rcases List.mem_append.mp hx with hx | hx
      · have := hbounds x ((List.take_sublist _ _).subset hx)
        rw [abs_le]; exact ⟨this.1, this.2⟩
      · have : x = 0 := by simpa using hx
        subst this; norm_num
    · have := hbounds x ((List.drop_sublist _ _).subset hx)
      rw [abs_le]; exact ⟨this.1, this.2⟩

theorem create_fp8_map_eq :
    create_fp8_map true 5 2 8 =
      (tensorSort (tensorSort fp8DefaultValues)).map
        (fun x => x / tensorMax (tensorSort (tensorSort fp8DefaultValues))) := by
  simp [create_fp8_map, fp8DefaultValues]

theorem fp8DefaultValues_neg_mem :
    ∀ x ∈ fp8DefaultValues, -x ∈ fp8DefaultValues := by
  intro x hx
  rw [fp8DefaultValues] at hx ⊢
  obtain ⟨ev, hev, hx⟩ := List.mem_flatMap.mp hx
  obtain ⟨bp, hbp, hx⟩ := List.mem_flatMap.mp hx
  refine List.mem_flatMap.mpr ⟨ev, hev, List.mem_flatMap.mpr ⟨bp, hbp, ?_⟩⟩
  rcases List.mem_cons.mp hx with rfl | hx
  · simp
  · have : x = -(fp8val 5 ev bp) := by simpa using hx
    subst this
    simp

theorem fp8val_one : fp8val 5 17 [0, 0] = 1 := by
  norm_num [fp8val, List.enum, List.enumFrom]

theorem fp8DefaultValues_one_mem : (1 : ℚ) ∈ fp8DefaultValues := by
  rw [fp8DefaultValues]
  refine List.mem_flatMap.mpr ⟨17, by simp, List.mem_flatMap.mpr ⟨[0, 0], by decide, ?_⟩⟩
  rw [fp8val_one]
  simp

theorem fp8_sorted2_max_pos :
    0 < tensorMax (tensorSort (tensorSort fp8DefaultValues)) := by
  have h1 : (1 : ℚ) ∈ tensorSort (tensorSort fp8DefaultValues) := by
    rw [mem_tensorSort, mem_tensorSort]
    exact fp8DefaultValues_one_mem
  linarith [le_tensorMax h1]

theorem fp8_sorted2_abs_le :
    ∀ x ∈ tensorSort (tensorSort fp8DefaultValues),
      |x| ≤ tensorMax (tensorSort (tensorSort fp8DefaultValues)) := by
  intro x hx
  have hneg : -x ∈ tensorSort (tensorSort fp8DefaultValues) := by
    rw [mem_tensorSort, mem_tensorSort] at hx ⊢
    exact fp8DefaultValues_neg_mem x hx
  rw [abs_le]
  constructor
  · linarith [le_tensorMax hneg]
  · exact le_tensorMax hx

theorem create_fp8_map_length : (create_fp8_map true 5 2 8).length = 256 := by
  rw [create_fp8_map_eq, List.length_map, length_tensorSort, length_tensorSort]
  decide

theorem create_fp8_map_sorted :
    List.Sorted (· ≤ ·) (create_fp8_map true 5 2 8) := by
  rw [create_fp8_map_eq]
  exact sorted_map_div fp8_sorted2_max_pos (sorted_tensorSort _)

theorem create_fp8_map_maxAbs : maxAbs (create_fp8_map true 5 2 8) = 1 := by
  rw [create_fp8_map_eq]
  exact maxAbs_div_tensorMax fp8_sorted2_max_pos fp8_sorted2_abs_le

theorem create_normal_map_eq (ppf : ℚ → ℚ) :
    create_normal_map ppf normalMapOffset true =
      (tensorSort (normalMapRaw ppf)).map
        (fun x => x / tensorMax (tensorSort (normalMapRaw ppf))) := by
  simp [create_normal_map, normalMapRaw]

theorem normalMapOffset_ge_half : (1:ℚ)/2 ≤ normalMapOffset := by
  norm_num [normalMapOffset]

theorem normalMapRaw_bound {ppf : ℚ → ℚ} (hmono : Monotone ppf)
    (hpos : 0 < ppf (1/2)) :
    ∀ x ∈ normalMapRaw ppf, x ≤ ppf normalMapOffset ∧ |x| ≤ ppf normalMapOffset := by
  have hpo : 0 < ppf normalMapOffset :=
    lt_of_lt_of_le hpos (hmono normalMapOffset_ge_half)
  have harg : ∀ k : ℕ, ∀ p ∈ (linspace normalMapOffset (1/2) k).dropLast,
      0 < ppf p ∧ ppf p ≤ ppf normalMapOffset := by
    intro k p hp
    have hb := linspace_bounds_desc normalMapOffset_ge_half k p
      ((List.dropLast_sublist _).subset hp)
    exact ⟨lt_of_lt_of_le hpos (hmono hb.1), hmono hb.2⟩
  intro x hx
  rcases List.mem_append.mp hx with hx | hx
  · rcases List.mem_append.mp hx with hx | hx
    · obtain ⟨p, hp, rfl⟩ := List.mem_map.mp hx
      obtain ⟨hp1, hp2⟩ := harg 9 p hp
      exact ⟨hp2, by rw [abs_of_pos hp1]; exact hp2⟩
    · have : x = 0 := (List.eq_of_mem_replicate hx)
      subst this
      exact ⟨hpo.le, by simpa using hpo.le⟩
  · obtain ⟨p, hp, rfl⟩ := List.mem_map.mp hx
    obtain ⟨hp1, hp2⟩ := harg 8 p hp
    refine ⟨by linarith, ?_⟩
    rw [abs_neg, abs_of_pos hp1]
    exact hp2

theorem normalMapRaw_attained (ppf : ℚ → ℚ) :
    ppf normalMapOffset ∈ normalMapRaw ppf := by
  obtain ⟨l, hl, hlen⟩ := linspace_head (a := normalMapOffset) (b := 1/2) (n := 9)
    (by norm_num)
  have hlne : l ≠ [] := by
    intro he; rw [he] at hlen; simp at hlen
  have hoff : normalMapOffset ∈ (linspace normalMapOffset (1/2) 9).dropLast := by
    rw [hl, List.dropLast_cons_of_ne_nil hlne]
    exact List.mem_cons_self _ _
  exact List.mem_append_left _
    (List.mem_append_left _ (List.mem_map_of_mem ppf hoff))

theorem normalMap_max_eq {ppf : ℚ → ℚ} (hmono : Monotone ppf)
    (hpos : 0 < ppf (1/2)) :
    tensorMax (tensorSort (normalMapRaw ppf)) = ppf normalMapOffset := by
  apply tensorMax_eq_of
  · rw [mem_tensorSort]; exact normalMapRaw_attained ppf
  · intro x hx
    exact (normalMapRaw_bound hmono hpos x (mem_tensorSort.mp hx)).1

theorem create_normal_map_length (ppf : ℚ → ℚ) :
    (create_normal_map ppf normalMapOffset true).length = 256 := by
  rw [create_normal_map_eq, List.length_map, length_tensorSort, normalMapRaw]
  simp [linspace_length]

theorem create_normal_map_sorted {ppf : ℚ → ℚ} (hmono : Monotone ppf)
    (hpos : 0 < ppf (1/2)) :
    List.Sorted (· ≤ ·) (create_normal_map ppf normalMapOffset true) := by
  rw [create_normal_map_eq]
  apply sorted_map_div _ (sorted_tensorSort _)
  rw [normalMap_max_eq hmono hpos]
  exact lt_of_lt_of_le hpos (hmono normalMapOffset_ge_half)

theorem create_normal_map_maxAbs {ppf : ℚ → ℚ} (hmono : Monotone ppf)
    (hpos : 0 < ppf (1/2)) :
    maxAbs (create_normal_map ppf normalMapOffset true) = 1 := by
  rw [create_normal_map_eq]
  apply maxAbs_div_tensorMax
  · rw [normalMap_max_eq hmono hpos]
    exact lt_of_lt_of_le hpos (hmono normalMapOffset_ge_half)
  · intro x hx
    rw [normalMap_max_eq hmono hpos]
    exact (normalMapRaw_bound hmono hpos x (mem_tensorSort.mp hx)).2

theorem get_4bit_type_table_nf4 :
    get_4bit_type_table "nf4" 64 = some (nf4Data.map (fun x => x / maxAbs nf4Data)) := by
  simp [get_4bit_type_table]

theorem get_4bit_type_table_fp4 :
    get_4bit_type_table "fp4" 64 = some (fp4Data.map (fun x => x / maxAbs fp4Data)) := by
  simp [get_4bit_type_table]

theorem get_4bit_type_table_int4 :
    get_4bit_type_table "int4" 64 = some (int4Data.map (fun x => x / maxAbs int4Data)) := by
  simp [get_4bit_type_table]

theorem get_4bit_type_table_af4 :
    get_4bit_type_table "af4" 64 = some (af4Data.map (fun x => x / maxAbs af4Data)) := by
  simp [get_4bit_type_table]

theorem nf4_maxAbs_pos : 0 < maxAbs nf4Data := by
  have h1 : (1:ℚ) ∈ nf4Data.map (fun x => |x|) :=
    List.mem_map.mpr ⟨-1, by norm_num [nf4Data], by norm_num⟩
  rw [maxAbs]
  linarith [le_tensorMax h1]

theorem fp4_maxAbs_pos : 0 < maxAbs fp4Data := by
  have h1 : (12:ℚ) ∈ fp4Data.map (fun x => |x|) :=
    List.mem_map.mpr ⟨12, by norm_num [fp4Data], by norm_num⟩
  rw [maxAbs]
  linarith [le_tensorMax h1]

theorem int4_maxAbs_pos : 0 < maxAbs int4Data := by
  have h1 : (7:ℚ) ∈ int4Data.map (fun x => |x|) :=
    List.mem_map.mpr ⟨7, by norm_num [int4Data], by norm_num⟩
  rw [maxAbs]
  linarith [le_tensorMax h1]

theorem af4_maxAbs_pos : 0 < maxAbs af4Data := by
  have h1 : (1:ℚ) ∈ af4Data.map (fun x => |x|) :=
    List.mem_map.mpr ⟨-1, by rw [af4Data, List.mem_reverse]; norm_num, by norm_num⟩
  rw [maxAbs]
  linarith [le_tensorMax h1]

theorem nf4Data_sorted : List.Sorted (· ≤ ·) nf4Data := by
  norm_num [nf4Data, List.sorted_cons]

theorem nf4_table_sorted :
    List.Sorted (· ≤ ·) (nf4Data.map (fun x => x / maxAbs nf4Data)) :=
  sorted_map_div nf4_maxAbs_pos nf4Data_sorted

theorem fp4_table_not_sorted :
    ¬ List.Sorted (· ≤ ·) (fp4Data.map (fun x => x / maxAbs fp4Data)) := by
  intro h
  set m := maxAbs fp4Data with hm
  have hmpos : 0 < m := by rw [hm]; exact fp4_maxAbs_pos
  rw [show fp4Data = [0, 0.0625, 8.0, 12.0, 4.0, 6.0, 2.0, 3.0,
    -0, -0.0625, -8.0, -12.0, -4.0, -6.0, -2.0, -3.0] from rfl] at h
  simp only [List.map_cons, List.map_nil] at h
  have h1 := (List.sorted_cons.mp h).2
  have h2 := (List.sorted_cons.mp h1).2
  have h3 := (List.sorted_cons.mp h2).2
  have h4 := (List.sorted_cons.mp h3).1 _ (List.mem_cons_self _ _)
  rw [div_le_div_iff_of_pos_right hmpos] at h4
  norm_num at h4

theorem int4_table_not_sorted :
    ¬ List.Sorted (· ≤ ·) (int4Data.map (fun x => x / maxAbs int4Data)) := by
  intro h
  set m := maxAbs int4Data with hm
  have hmpos : 0 < m := by rw [hm]; exact int4_maxAbs_pos
  rw [show int4Data = [7, 6, 5, 4, 3, 2, 1, 0, -0, -1, -2, -3, -4, -5, -6, -7]
    from rfl] at h
  simp only [List.map_cons, List.map_nil] at h
  have h1 := (List.sorted_cons.mp h).1 _ (List.mem_cons_self _ _)
  rw [div_le_div_iff_of_pos_right hmpos] at h1
  norm_num at h1

theorem af4_table_not_sorted :
    ¬ List.Sorted (· ≤ ·) (af4Data.map (fun x => x / maxAbs af4Data)) := by
  intro h
  set m := maxAbs af4Data with hm
  have hmpos : 0 < m := by rw [hm]; exact af4_maxAbs_pos
  rw [show af4Data =
      [1.0, 0.72424863, 0.55496234, 0.42563882, 0.31675666, 0.21961274,
       0.12934483, 0.04273164, 0.0, -0.04934812, -0.14982478, -0.25607552,
       -0.3736951, -0.51243739, -0.69441008, -1.0] from by rw [af4Data]; rfl] at h
  simp only [List.map_cons, List.map_nil] at h
  have h1 := (List.sorted_cons.mp h).1 _ (List.mem_cons_self _ _)
  rw [div_le_div_iff_of_pos_right hmpos] at h1
  norm_num at h1

/-! ## C1 theorems -/

/-- C1 counterexample: the claim asserts that the table returned by
get_4bit_type for every supported 4-bit type name has 2^4 entries, is sorted
ascending and has maximum absolute value 1.0, but get_4bit_type raises
UnboundLocalError on every call (the local device is read at line 921 before
its only assignment at line 922), so at typename "fp4" - as at every other
name - the call errors and no table is returned at all. -/
theorem C1_get_4bit_type_raises_counterexample :
    get_4bit_type "fp4" 64 =
      .error "UnboundLocalError: local variable device referenced before assignment" :=
  rfl

/-- C1 (amended): each 8-bit codebook built by the Codebook Builder at its
default arguments (create_dynamic_map, create_linear_map, create_fp8_map,
create_normal_map) has exactly 2^8 entries, is sorted ascending and has
maximum absolute value exactly 1.0 (the normal-quantile function of scipy is
abstracted as any monotone ppf positive at 1/2); the 4-bit builder
get_4bit_type returns no table for any type name or blocksize: every call
fails with UnboundLocalError on the undefined local device before the table
construction is reached. -/
theorem C1_codebook_properties (ppf : ℚ → ℚ) (hmono : Monotone ppf)
    (hpos : 0 < ppf (1/2)) :
    ((create_dynamic_map true 7 8).length = 2 ^ 8 ∧
      List.Sorted (· ≤ ·) (create_dynamic_map true 7 8) ∧
      maxAbs (create_dynamic_map true 7 8) = 1) ∧
    ((create_linear_map true 8 true).length = 2 ^ 8 ∧
      List.Sorted (· ≤ ·) (create_linear_map true 8 true) ∧
      maxAbs (create_linear_map true 8 true) = 1) ∧
    ((create_fp8_map true 5 2 8).length = 2 ^ 8 ∧
      List.Sorted (· ≤ ·) (create_fp8_map true 5 2 8) ∧
      maxAbs (create_fp8_map true 5 2 8) = 1) ∧
    ((create_normal_map ppf normalMapOffset true).length = 2 ^ 8 ∧
      List.Sorted (· ≤ ·) (create_normal_map ppf normalMapOffset true) ∧
      maxAbs (create_normal_map ppf normalMapOffset true) = 1) ∧
    (∀ typename blocksize, get_4bit_type typename blocksize =
      .error "UnboundLocalError: local variable device referenced before assignment") := by
  refine ⟨⟨?_, create_dynamic_map_sorted, create_dynamic_map_maxAbs⟩,
    ⟨?_, create_linear_map_sorted, create_linear_map_maxAbs⟩,
    ⟨?_, create_fp8_map_sorted, create_fp8_map_maxAbs⟩,
    ⟨?_, create_normal_map_sorted hmono hpos, create_normal_map_maxAbs hmono hpos⟩,
    fun _ _ => rfl⟩
  · rw [create_dynamic_map_length]; norm_num
  · rw [create_linear_map_length]; norm_num
  · rw [create_fp8_map_length]; norm_num
  · rw [create_normal_map_length]; norm_num

/-- Witness for C1 at the constant quantile function ppf = 1, which is
monotone and positive at 1/2. -/
theorem C1_codebook_properties_witness :
    Monotone (fun _ : ℚ => (1:ℚ)) ∧ (0:ℚ) < 1 ∧
      (((create_dynamic_map true 7 8).length = 2 ^ 8 ∧
        List.Sorted (· ≤ ·) (create_dynamic_map true 7 8) ∧
        maxAbs (create_dynamic_map true 7 8) = 1) ∧
      ((create_linear_map true 8 true).length = 2 ^ 8 ∧
        List.Sorted (· ≤ ·) (create_linear_map true 8 true) ∧
        maxAbs (create_linear_map true 8 true) = 1) ∧
      ((create_fp8_map true 5 2 8).length = 2 ^ 8 ∧
        List.Sorted (· ≤ ·) (create_fp8_map true 5 2 8) ∧
        maxAbs (create_fp8_map true 5 2 8) = 1) ∧
      ((create_normal_map (fun _ : ℚ => (1:ℚ)) normalMapOffset true).length = 2 ^ 8 ∧
        List.Sorted (· ≤ ·) (create_normal_map (fun _ : ℚ => (1:ℚ)) normalMapOffset true) ∧
        maxAbs (create_normal_map (fun _ : ℚ => (1:ℚ)) normalMapOffset true) = 1) ∧
      (∀ typename blocksize, get_4bit_type typename blocksize =
        .error "UnboundLocalError: local variable device referenced before assignment")) :=
  ⟨monotone_const, one_pos,
    C1_codebook_properties (fun _ => 1) monotone_const one_pos⟩

/-! ## C9 theorem -/

/-- C9: for every input size n and every positive blocksize s (in particular
every supported blocksize), the allocated absmax array has exactly
ceil(n / s) entries, i.e. n / s plus one extra entry when n is not a
multiple of s. -/
theorem C9_absmax_length (n s : ℕ) (hs : 0 < s) :
    absmaxBlocks n s = (n + s - 1) / s ∧
    (n % s = 0 → absmaxBlocks n s = n / s) ∧
    (n % s ≠ 0 → absmaxBlocks n s = n / s + 1) := by
  have hrec : s * (n / s) + n % s = n := Nat.div_add_mod n s
  have hlt : n % s < s := Nat.mod_lt _ hs
  refine ⟨?_, ?_, ?_⟩
  · rcases Nat.eq_zero_or_pos (n % s) with h | h
    · have h1 : n + s - 1 = s * (n / s) + (s - 1) := by omega
      have h3 : (s - 1) / s = 0 := Nat.div_eq_of_lt (by omega)
      rw [absmaxBlocks, h, h1, Nat.mul_add_div hs, h3]
      simp
    · have h2 : n + s - 1 = s * (n / s + 1) + (n % s - 1) := by
        rw [Nat.mul_add, Nat.mul_one]; omega
      have h3 : (n % s - 1) / s = 0 := Nat.div_eq_of_lt (by omega)
      rw [absmaxBlocks, if_pos h, h2, Nat.mul_add_div hs, h3, add_zero]
  · intro h; rw [absmaxBlocks, h]; simp
  · intro h; rw [absmaxBlocks, if_pos (Nat.pos_of_ne_zero h)]

/-- Witness for C9 at n = 130, s = 64: 130 elements in blocks of 64 need
3 absmax entries. -/
theorem C9_absmax_length_witness :
    0 < 64 ∧
    (absmaxBlocks 130 64 = (130 + 64 - 1) / 64 ∧
      (130 % 64 = 0 → absmaxBlocks 130 64 = 130 / 64) ∧
      (130 % 64 ≠ 0 → absmaxBlocks 130 64 = 130 / 64 + 1)) :=
  ⟨by decide, C9_absmax_length 130 64 (by decide)⟩

/-! ## C10 theorem -/

/-- C10: matmul writes its threshold argument into the caller state only when
strictly positive; a call with threshold 0 on a state whose threshold is
already positive leaves the state (hence the positive threshold and the
enabled outlier decomposition) unchanged, and for every threshold argument
all fields other than threshold are left as passed in. -/
theorem C10_matmul_threshold_frame (s : MatmulLtState) (h : 0 < s.threshold) :
    matmulUpdateState s 0 = s ∧
    0 < (matmulUpdateState s 0).threshold ∧
    (∀ t, t ≤ 0 → matmulUpdateState s t = s) ∧
    (∀ t,
      (matmulUpdateState s t).tileIndices = s.tileIndices ∧
      (matmulUpdateState s t).force_no_igemmlt = s.force_no_igemmlt ∧
      (matmulUpdateState s t).CB = s.CB ∧
      (matmulUpdateState s t).CxB = s.CxB ∧
      (matmulUpdateState s t).SB = s.SB ∧
      (matmulUpdateState s t).SCB = s.SCB ∧
      (matmulUpdateState s t).CxBt = s.CxBt ∧
      (matmulUpdateState s t).SBt = s.SBt ∧
      (matmulUpdateState s t).CBt = s.CBt ∧
      (matmulUpdateState s t).subB = s.subB ∧
      (matmulUpdateState s t).outlier_pool = s.outlier_pool ∧
      (matmulUpdateState s t).has_accumulated_gradients = s.has_accumulated_gradients ∧
      (matmulUpdateState s t).idx = s.idx ∧
      (matmulUpdateState s t).is_training = s.is_training ∧
      (matmulUpdateState s t).has_fp16_weights = s.has_fp16_weights ∧
      (matmulUpdateState s t).memory_efficient_backward = s.memory_efficient_backward ∧
      (matmulUpdateState s t).use_pool = s.use_pool ∧
      (matmulUpdateState s t).formatB = s.formatB) := by
  have hz : ¬ ((0 : ℚ) > 0) := lt_irrefl 0
  refine ⟨?_, ?_, ?_, ?_⟩
  · simp [matmulUpdateState, hz]
  · simp [matmulUpdateState, hz]; exact h
  · intro t ht
    have : ¬ (t > 0) := not_lt.mpr ht
    simp [matmulUpdateState, this]
  · intro t
    by_cases hp : t > 0 <;> simp [matmulUpdateState, hp]

/-- Witness for C10 at a concrete state with threshold 6. -/
theorem C10_matmul_threshold_frame_witness :
    0 < ({ threshold := 6 } : MatmulLtState).threshold ∧
    matmulUpdateState { threshold := 6 } 0 = { threshold := 6 } :=
  ⟨by norm_num, (C10_matmul_threshold_frame { threshold := 6 } (by norm_num)).1⟩

/-! ## C4 theorems -/

/-- C4 counterexample: in MatMul4Bit.forward the empty-input result shape is
computed from quant_state.shape, not from the shape of the packed operand B as
the claim states.  With A.shape = (0, 4), packed B.shape = (8, 1) and
quant_state.shape = (4, 5), the code returns shape (0, 5) while the claim's
formula on B.shape gives (0, 8). -/
theorem C4_4bit_shape_counterexample :
    matmul4bit_forward_empty [0, 4] [8, 1] [4, 5] = some [0, 5] ∧
    claimC4Shape [0, 4] [8, 1] = [0, 8] ∧
    some ([0, 5] : List ℕ) ≠ some [0, 8] := by
  decide

/-- C4 (amended): every call with a zero-element A short-circuits before any
quantization or GEMM; MatMul8bitLt.construct returns an empty tensor shaped by
the claim's formula applied to B's shape, and MatMul4Bit.forward returns an
empty tensor shaped by the same formula applied to quant_state.shape (for
every shape of the packed operand B, which it ignores). -/
theorem C4_empty_short_circuit (env : MM8Env) (K : ℕ) (A CB : ℕ → ℕ → ℚ)
    (SCB : ℕ → ℚ) (idx : Option (List ℕ)) (bias : Option (ℕ → ℚ))
    (h : prodShape env.Ashape = 0) :
    matmul8bitlt_construct env K A CB SCB idx bias =
      .empty (claimC4Shape env.Ashape env.Bshape) ∧
    ∀ Bshape QSshape, matmul4bit_forward_empty env.Ashape Bshape QSshape =
      some (claimC4Shape env.Ashape QSshape) := by
  constructor
  · simp [matmul8bitlt_construct, h, emptyMatmulShape, claimC4Shape]
  · intro Bshape QSshape
    simp [matmul4bit_forward_empty, h, emptyMatmulShape, claimC4Shape]

/-- Witness for C4 at A.shape = (0, 4). -/
theorem C4_empty_short_circuit_witness :
    prodShape [0, 4] = 0 ∧
    (matmul8bitlt_construct ⟨[0, 4], [4, 5], (8, 0), "A100", false⟩ 0
        (fun _ _ => 0) (fun _ _ => 0) (fun _ => 0) none none =
      .empty (claimC4Shape [0, 4] [4, 5]) ∧
    ∀ Bshape QSshape, matmul4bit_forward_empty [0, 4] Bshape QSshape =
      some (claimC4Shape [0, 4] QSshape)) :=
  ⟨by decide, C4_empty_short_circuit ⟨[0, 4], [4, 5], (8, 0), "A100", false⟩ 0
    (fun _ _ => 0) (fun _ _ => 0) (fun _ => 0) none none (by decide)⟩

/-! ## C5 theorem -/

/-- C5: in every non-empty MatMul8bitLt.construct call, the fast tiled int8
GEMM path is taken iff supports_igemmlt() is true and force_no_igemmlt is not
set; in every other non-empty case the call still produces a result: the dense
fallback output (outlier columns of A zeroed, dense matmul against CB, scaled
by SCB/127, bias added), so lacking device capability never raises and never
silently takes the fast path. -/
theorem C5_igemmlt_path_selection (env : MM8Env) (K : ℕ) (A CB : ℕ → ℕ → ℚ)
    (SCB : ℕ → ℚ) (idx : Option (List ℕ)) (bias : Option (ℕ → ℚ))
    (h : prodShape env.Ashape ≠ 0) :
    (matmul8bitlt_construct env K A CB SCB idx bias = .fast ↔
      supports_igemmlt env.capability env.deviceName = true ∧
        env.force_no_igemmlt = false) ∧
    ((supports_igemmlt env.capability env.deviceName = false ∨
        env.force_no_igemmlt = true) →
      matmul8bitlt_construct env K A CB SCB idx bias =
        .fallback (denseFallbackOutput K A CB SCB idx bias)) := by
  cases hs : supports_igemmlt env.capability env.deviceName <;>
    cases hf : env.force_no_igemmlt <;>
      simp [matmul8bitlt_construct, h, hs, hf]

/-- Witness for C5 on a capability-(6, 0) device (no tensor cores): the
fallback path is selected and computes the dense output. -/
theorem C5_igemmlt_path_selection_witness :
    prodShape [2, 3] ≠ 0 ∧
    ((matmul8bitlt_construct ⟨[2, 3], [4, 3], (6, 0), "GTX 1060", false⟩ 3
        (fun _ _ => 1) (fun _ _ => 1) (fun _ => 127) none none = .fast ↔
      supports_igemmlt (6, 0) "GTX 1060" = true ∧ false = false) ∧
    ((supports_igemmlt (6, 0) "GTX 1060" = false ∨ false = true) →
      matmul8bitlt_construct ⟨[2, 3], [4, 3], (6, 0), "GTX 1060", false⟩ 3
        (fun _ _ => 1) (fun _ _ => 1) (fun _ => 127) none none =
        .fallback (denseFallbackOutput 3 (fun _ _ => 1) (fun _ _ => 1)
          (fun _ => 127) none none))) :=
  ⟨by decide, C5_igemmlt_path_selection ⟨[2, 3], [4, 3], (6, 0), "GTX 1060", false⟩
    3 (fun _ _ => 1) (fun _ _ => 1) (fun _ => 127) none none (by decide)⟩

/-! ## C3 theorem -/

/-- C3: the code evaluated at the failing input.  With a single detected
outlier at column 5 (coo_tensorA.colidx = [5]), the binding
_, idx = ops.unique(colidx) takes the inverse-index array [0] of ops.unique,
not the outlier column values [5]; consequently CA[:, idx] = 0 zeroes column 0
and leaves the detected outlier column 5 intact (shown on an all-ones CA), and
subA / state.subB are likewise sliced at column 0. -/
theorem C3_outlier_zeroing_uses_inverse_indices :
    construct_outlier_idx [5] = [0] ∧
    construct_CA_after_outliers (fun _ _ => 1) [5] 0 5 = 1 ∧
    construct_CA_after_outliers (fun _ _ => 1) [5] 0 0 = 0 := by
  decide

/-! ## C6 theorems -/

/-- C6 counterexample: the nested quantization of the absmax array in
quantize_blockwise is performed at the same blocksize as the outer call, not
at a smaller fixed granularity: at outer blocksize 64 the stored inner
blocksize is also 64. -/
theorem C6_nested_blocksize_counterexample :
    (quantize_blockwise_nested dynamicCode 64 (List.replicate 65 1)).2.inner_blocksize
      = 64 ∧
    ¬ ((quantize_blockwise_nested dynamicCode 64 (List.replicate 65 1)).2.inner_blocksize
      < (quantize_blockwise_nested dynamicCode 64 (List.replicate 65 1)).2.outer_blocksize) := by
  refine ⟨rfl, ?_⟩
  intro hlt
  have h1 : (quantize_blockwise_nested dynamicCode 64
      (List.replicate 65 1)).2.inner_blocksize = 64 := rfl
  have h2 : (quantize_blockwise_nested dynamicCode 64
      (List.replicate 65 1)).2.outer_blocksize = 64 := rfl
  rw [h1, h2] at hlt
  exact lt_irrefl 64 hlt

/-- C6 (amended): for every quantize_blockwise call with nested=true, the
stored offset equals the mean of the per-block absmax values (the per-block
maximum absolute values), the absmax array minus that offset is itself
blockwise-quantized with the default dynamic codebook at the same blocksize
as the outer call into the nested state, and dequantize_blockwise on the
resulting state recovers the per-block scales by dequantizing the nested
state and adding the offset back before rescaling the elements. -/
theorem C6_nested_quantization (code : List ℚ) (bs : ℕ) (A : List ℚ) :
    (quantize_blockwise_raw code bs A).2 = (chunkList bs A).map maxAbs ∧
    (quantize_blockwise_nested code bs A).1 = (quantize_blockwise_raw code bs A).1 ∧
    (quantize_blockwise_nested code bs A).2.offset =
      tensorMean (quantize_blockwise_raw code bs A).2 ∧
    (quantize_blockwise_nested code bs A).2.outer_blocksize = bs ∧
    (quantize_blockwise_nested code bs A).2.inner_blocksize = bs ∧
    (quantize_blockwise_nested code bs A).2.qabsmax =
      (quantize_blockwise_raw dynamicCode bs
        ((quantize_blockwise_raw code bs A).2.map
          (fun v => v - tensorMean (quantize_blockwise_raw code bs A).2))).1 ∧
    (quantize_blockwise_nested code bs A).2.inner_absmax =
      (quantize_blockwise_raw dynamicCode bs
        ((quantize_blockwise_raw code bs A).2.map
          (fun v => v - tensorMean (quantize_blockwise_raw code bs A).2))).2 ∧
    (∀ codes, dequantize_blockwise_nested code
        (quantize_blockwise_nested code bs A).2 codes =
      dequantize_blockwise_raw code bs
        ((dequantize_blockwise_raw dynamicCode bs
            (quantize_blockwise_nested code bs A).2.inner_absmax
            (quantize_blockwise_nested code bs A).2.qabsmax).map
          (fun v => v + (quantize_blockwise_nested code bs A).2.offset)) codes) :=
  ⟨rfl, rfl, rfl, rfl, rfl, rfl, rfl, fun _ => rfl⟩

/-! ## C7 theorems -/

/-- C7 counterexample: dequantize_4bit with a state recording shape (2, 3)
returns the transposed shape (3, 2) whenever the packed input buffer has a
first dimension of 1 (is_transposed, src/bitsandbytes/functional.py line
1313), so the returned shape is not the shape recorded in the state for every
shape of the packed input. -/
theorem C7_transpose_counterexample :
    dequantize_4bit_out_shape [1, 3] [2, 3] = [3, 2] ∧
    ([3, 2] : List ℕ) ≠ [2, 3] := by
  decide

/-- C7 (amended): dequantize_blockwise returns a tensor with the dtype
recorded in the state but the shape of the packed input (the 8-bit QuantState
records no shape), with one element per packed code; dequantize_4bit returns
exactly the shape recorded in the state unless the packed input's first
dimension equals 1, in which case the output is transposed (shape reversed);
its dtype is always the state's dtype. -/
theorem C7_dequantize_output_meta (Ashape stShape : List ℕ) (dt : MSDType)
    (code absmax : List ℚ) (codes : List ℕ) (bs : ℕ) :
    dequantize_blockwise_out_meta Ashape dt = (Ashape, dt) ∧
    (dequantize_blockwise_raw code bs absmax codes).length = codes.length ∧
    (Ashape.headD 0 ≠ 1 → dequantize_4bit_out_shape Ashape stShape = stShape) ∧
    (Ashape.headD 0 = 1 → dequantize_4bit_out_shape Ashape stShape = stShape.reverse) := by
  refine ⟨rfl, ?_, ?_, ?_⟩
  · simp [dequantize_blockwise_raw]
  · intro h
    rw [dequantize_4bit_out_shape, if_neg h]
  · intro h
    rw [dequantize_4bit_out_shape, if_pos h]

/-- Witness for C7 at concrete shapes (4, 3) (not transposed) and (1, 3)
(transposed). -/
theorem C7_dequantize_output_meta_witness :
    (([4, 3] : List ℕ).headD 0 ≠ 1 ∧ ([1, 3] : List ℕ).headD 0 = 1) ∧
    dequantize_blockwise_out_meta [6] MSDType.f16 = ([6], MSDType.f16) ∧
    (dequantize_blockwise_raw [0, 1] 2 [1] [0, 1, 1]).length = 3 ∧
    dequantize_4bit_out_shape [4, 3] [2, 3] = [2, 3] ∧
    dequantize_4bit_out_shape [1, 3] [2, 3] = ([2, 3] : List ℕ).reverse :=
  ⟨⟨by decide, by decide⟩,
    (C7_dequantize_output_meta [6] [2, 3] MSDType.f16 [0, 1] [1] [0, 1, 1] 2).1,
    (C7_dequantize_output_meta [6] [2, 3] MSDType.f16 [0, 1] [1] [0, 1, 1] 2).2.1,
    (C7_dequantize_output_meta [4, 3] [2, 3] MSDType.f16 [0, 1] [1] [0, 1, 1] 2).2.2.1
      (by decide),
    (C7_dequantize_output_meta [1, 3] [2, 3] MSDType.f16 [0, 1] [1] [0, 1, 1] 2).2.2.2
      (by decide)⟩

/-! ## C8 theorem -/

/-- C8: the code evaluated at the failing input.  For every QuantState, the
unpacked dict produced by as_dict(packed=False) contains no tensor-valued key
containing "quant_state", so from_dict's second validation branch
(len(qs_key) != 1) raises unconditionally: the unpacked round trip of the
claim never returns a state.  (The first branch explicitly accepts the
unpacked form when quant_type is present, which is why this is a defect of the
code rather than of the claim.) -/
theorem C8_from_dict_rejects_unpacked (s : QuantStateRec) :
    from_dict (as_dict_unpacked s) =
      .error "There should be exactly one quant_state item with ending from valid_qs_type_keys" := by
  rcases s with ⟨am, sh, cd, bsz, qt, dt, off, st2⟩
  cases st2 <;> cases off <;> rfl

/-! ## C2 theorems -/

theorem int8wrap_byte (b : ℕ) (hb : b < 256) :
    int8wrap ((b : ℤ) - 128) = (b : ℤ) - 128 := by
  rw [int8wrap]
  omega

theorem gitiPassTerm_eq (pi : ℕ → ℕ) (i p : ℕ) :
    gitiPassTerm pi i p = ((pi p / 256 ^ i % 256 * 256 ^ i : ℕ) : ℤ) := by
  have hb : pi p / 256 ^ i % 256 < 256 := Nat.mod_lt _ (by norm_num)
  rw [gitiPassTerm, int8wrap_byte _ hb]
  push_cast
  ring

theorem digitSumNat (x B : ℕ) :
    ∀ m, ((List.range m).map (fun i => x / B ^ i % B * B ^ i)).sum = x % B ^ m := by
  intro m
  induction m with
  | zero => simp [Nat.mod_one]
  | succ m ih =>
    rw [List.range_succ, List.map_append, List.sum_append, ih]
    simp only [List.map_cons, List.map_nil, List.sum_cons, List.sum_nil, add_zero]
    rw [pow_succ, Nat.mod_mul]
    ring

theorem executedPassesAux_spec (E : ℕ) :
    ∀ fuel i, 0 < fuel →
      ∃ len, 0 < len ∧ executedPassesAux E i fuel = List.range' i len ∧
        (len = fuel ∨ E < 256 ^ (i + (len - 1))) := by
  intro fuel
  induction fuel with
  | zero => intro i h; omega
  | succ g ih =>
    intro i _
    by_cases hbr : E < 256 ^ i
    · refine ⟨1, one_pos, ?_, Or.inr (by simpa using hbr)⟩
      simp [executedPassesAux, hbr]
    · rcases Nat.eq_zero_or_pos g with rfl | hg
      · refine ⟨1, one_pos, ?_, Or.inl rfl⟩
        simp [executedPassesAux, hbr]
      · obtain ⟨len', hlen', heq, hcase⟩ := ih (i + 1) hg
        refine ⟨len' + 1, by omega, ?_, ?_⟩
        · rw [executedPassesAux, if_neg hbr, heq, List.range'_succ]
        · rcases hcase with rfl | hlt
          · exact Or.inl rfl
          · right
            have harith : i + 1 + (len' - 1) = i + (len' + 1 - 1) := by omega
            rw [harith] at hlt
            exact hlt

theorem giti_eq (E : ℕ) (pi : ℕ → ℕ) (hE64 : E < 2 ^ 64)
    (p : ℕ) (hp : pi p < E) :
    get_inverse_transform_indices E pi p = (pi p : ℤ) := by
  obtain ⟨len, hlen, heq, hcase⟩ := executedPassesAux_spec E 8 0 (by norm_num)
  have hbound : pi p < 256 ^ len := by
    rcases hcase with rfl | hlt
    · calc pi p < E := hp
        _ < 2 ^ 64 := hE64
        _ = 256 ^ 8 := by norm_num
    · calc pi p < E := hp
        _ < 256 ^ (0 + (len - 1)) := hlt
        _ ≤ 256 ^ len := Nat.pow_le_pow_right (by norm_num) (by omega)
  rw [get_inverse_transform_indices, executedPasses, heq, ← List.range_eq_range']
  have hmapeq : (List.range len).map (fun i => gitiPassTerm pi i p) =
      (List.range len).map (fun i => ((pi p / 256 ^ i % 256 * 256 ^ i : ℕ) : ℤ)) :=
    List.map_congr_left (fun i _ => gitiPassTerm_eq pi i p)
  rw [hmapeq]
  have hcast : (List.range len).map (fun i => ((pi p / 256 ^ i % 256 * 256 ^ i : ℕ) : ℤ)) =
      ((List.range len).map (fun i => pi p / 256 ^ i % 256 * 256 ^ i)).map
        (fun n : ℕ => (n : ℤ)) := by
    rw [List.map_map]
    rfl
  rw [hcast, ← Nat.cast_list_sum, digitSumNat, Nat.mod_eq_of_lt hbound]

theorem perm_surj (E : ℕ) (pi : ℕ → ℕ)
    (hmaps : ∀ p, p < E → pi p < E)
    (hinj : ∀ p, p < E → ∀ q, q < E → pi p = pi q → p = q)
    (q : ℕ) (hq : q < E) : ∃ p, p < E ∧ pi p = q := by
  have himg : (Finset.range E).image pi = Finset.range E := by
    apply Finset.eq_of_subset_of_card_le
    · intro x hx
      obtain ⟨p, hp, rfl⟩ := Finset.mem_image.mp hx
      exact Finset.mem_range.mpr (hmaps p (Finset.mem_range.mp hp))
    · have hinjOn : Set.InjOn pi (Finset.range E : Set ℕ) := by
        intro a2 ha b2 hb hab
        exact hinj a2 (by simpa using ha) b2 (by simpa using hb) hab
      rw [Finset.card_image_of_injOn hinjOn]
  have hqimg : q ∈ (Finset.range E).image pi := by
    rw [himg]; exact Finset.mem_range.mpr hq
  obtain ⟨p, hp, hpq⟩ := Finset.mem_image.mp hqimg
  exact ⟨p, Finset.mem_range.mp hp, hpq⟩

theorem scatterRows_eq (E : ℕ) (T : ℕ → ℤ) (pi : ℕ → ℕ)
    (hT : ∀ p, p < E → T p = (pi p : ℤ))
    (hinj : ∀ p, p < E → ∀ q, q < E → pi p = pi q → p = q)
    (tensor : ℕ → ℕ → ℤ) (q t : ℕ) (hq : q < E)
    (p0 : ℕ) (hp0E : p0 < E) (hp0 : pi p0 = q) :
    scatterRows E T tensor q t = tensor p0 t := by
  rw [scatterRows]
  cases hfind : (List.range E).reverse.find? (fun p => decide (T p = (q : ℤ))) with
  | none =>
    exfalso
    have hnone := List.find?_eq_none.mp hfind p0
      (by rw [List.mem_reverse]; exact List.mem_range.mpr hp0E)
    rw [hT p0 hp0E, hp0] at hnone
    simp at hnone
  | some p =>
    have hpE : p < E := by
      have := List.mem_of_find?_eq_some hfind
      rw [List.mem_reverse, List.mem_range] at this
      exact this
    have hTp : T p = (q : ℤ) := by
      have hpred := List.find?_some hfind
      simpa using hpred
    rw [hT p hpE] at hTp
    have hpi : pi p = q := by exact_mod_cast hTp
    have hpp0 : p = p0 := hinj p hpE p0 hp0E (by rw [hpi, hp0])
    rw [hpp0]

/-- C2: for every int8 matrix whose row and column counts are multiples of the
tile size (nrb*tr rows, ncb*tc columns; (8, 32) for col_turing and (32, 32)
for col_ampere per tileSizeOf), applying the forward tiled transform and then
undo_layout with the index table of get_inverse_transform_indices returns the
matrix exactly, at every position; the byte-decomposition index-table
construction is correct for ANY forward transform acting as a permutation pi
on tile positions (the permutation appears as an arbitrary injective self-map
of the tile), any tile with 0 < d1*d2 < 2^64 as asserted by the source. -/
theorem C2_tiled_layout_roundtrip (tr tc nrb ncb : ℕ) (htr : 0 < tr)
    (htc : 0 < tc) (hE64 : tr * tc < 2 ^ 64)
    (pi : ℕ → ℕ) (hmaps : ∀ p, p < tr * tc → pi p < tr * tc)
    (hinj : ∀ p, p < tr * tc → ∀ q, q < tr * tc → pi p = pi q → p = q)
    (M : ℕ → ℕ → ℤ) (row col : ℕ) (hrow : row < nrb * tr) (hcol : col < ncb * tc) :
    undo_layout (nrb * tr) (ncb * tc) tr tc
      (get_inverse_transform_indices (tr * tc) pi)
      (forward_tiled tr tc nrb pi M) row col = M row col := by
  have hnrb : 0 < nrb := by
    rcases Nat.eq_zero_or_pos nrb with rfl | h
    · simp at hrow
    · exact h
  have hd : row / tr < nrb := (Nat.div_lt_iff_lt_mul htr).mpr hrow
  have ha : row % tr < tr := Nat.mod_lt _ htr
  have hb : col % tc < tc := Nat.mod_lt _ htc
  have hq0 : (row % tr) * tc + col % tc < tr * tc := by
    calc (row % tr) * tc + col % tc < (row % tr) * tc + tc := by omega
      _ = (row % tr + 1) * tc := by ring
      _ ≤ tr * tc := Nat.mul_le_mul_right _ (Nat.succ_le_of_lt ha)
  obtain ⟨p0, hp0E, hp0⟩ := perm_surj (tr * tc) pi hmaps hinj _ hq0
  have hT : ∀ p, p < tr * tc →
      get_inverse_transform_indices (tr * tc) pi p = (pi p : ℤ) :=
    fun p hp => giti_eq (tr * tc) pi hE64 p (hmaps p hp)
  rw [undo_layout]
  have hdivtr : nrb * tr / tr = nrb := Nat.mul_div_cancel nrb htr
  rw [hdivtr]
  rw [scatterRows_eq (tr * tc) _ pi hT hinj _ _ _ hq0 p0 hp0E hp0]
  rw [forward_tiled]
  have hfdiv : (((col / tc) * nrb + row / tr) * (tr * tc) + p0) / (tr * tc) =
      (col / tc) * nrb + row / tr := by
    rw [mul_comm ((col / tc) * nrb + row / tr) (tr * tc),
      Nat.mul_add_div (Nat.mul_pos htr htc), Nat.div_eq_of_lt hp0E, add_zero]
  have hfmod : (((col / tc) * nrb + row / tr) * (tr * tc) + p0) % (tr * tc) = p0 := by
    rw [mul_comm ((col / tc) * nrb + row / tr) (tr * tc), Nat.mul_add_mod,
      Nat.mod_eq_of_lt hp0E]
  rw [hfdiv, hfmod, hp0]
  have htmod : ((col / tc) * nrb + row / tr) % nrb = row / tr := by
    rw [mul_comm (col / tc) nrb, Nat.mul_add_mod, Nat.mod_eq_of_lt hd]
  have htdiv : ((col / tc) * nrb + row / tr) / nrb = col / tc := by
    rw [mul_comm (col / tc) nrb, Nat.mul_add_div hnrb, Nat.div_eq_of_lt hd, add_zero]
  have hq0div : ((row % tr) * tc + col % tc) / tc = row % tr := by
    rw [mul_comm (row % tr) tc, Nat.mul_add_div htc, Nat.div_eq_of_lt hb, add_zero]
  have hq0mod : ((row % tr) * tc + col % tc) % tc = col % tc := by
    rw [mul_comm (row % tr) tc, Nat.mul_add_mod, Nat.mod_eq_of_lt hb]
  rw [htmod, htdiv, hq0div, hq0mod]
  have hrowrec : (row / tr) * tr + row % tr = row := by
    rw [mul_comm, Nat.div_add_mod]
  have hcolrec : (col / tc) * tc + col % tc = col := by
    rw [mul_comm, Nat.div_add_mod]
  rw [hrowrec, hcolrec]

/-- Witness for C2 on a 2 x 2 matrix with 1 x 2 tiles and the swap
permutation inside each tile, evaluated at entry (1, 1). -/
theorem C2_tiled_layout_roundtrip_witness :
    (0 < 1 ∧ 0 < 2 ∧ 1 * 2 < 2 ^ 64 ∧
      (∀ p, p < 1 * 2 → (fun p => if p = 0 then 1 else if p = 1 then 0 else p) p < 1 * 2) ∧
      (∀ p, p < 1 * 2 → ∀ q, q < 1 * 2 →
        (fun p => if p = 0 then 1 else if p = 1 then 0 else p) p =
          (fun p => if p = 0 then 1 else if p = 1 then 0 else p) q → p = q) ∧
      1 < 2 * 1 ∧ 1 < 1 * 2) ∧
    undo_layout (2 * 1) (1 * 2) 1 2
      (get_inverse_transform_indices (1 * 2)
        (fun p => if p = 0 then 1 else if p = 1 then 0 else p))
      (forward_tiled 1 2 2 (fun p => if p = 0 then 1 else if p = 1 then 0 else p)
        (fun r c => (r : ℤ) * 10 + c)) 1 1 =
      (fun r c => (r : ℤ) * 10 + c) 1 1 :=
  ⟨⟨by decide, by decide, by decide, by decide, by decide, by decide, by decide⟩,
    C2_tiled_layout_roundtrip 1 2 2 1 (by decide) (by decide) (by decide)
      (fun p => if p = 0 then 1 else if p = 1 then 0 else p) (by decide) (by decide)
      (fun r c => (r : ℤ) * 10 + c) 1 1 (by decide) (by decide)⟩

end MindBnB
